import Mathlib

/-!
Verification of the subscription-cancellation flow (Migrate Mate task).

The development shallowly embeds the storage layer of the repository —
the `seed.sql` schema, its `SECURITY DEFINER` RPCs
(`assign_balanced_downsell`, `save_found_job_answers`) and its hardening
triggers (`prevent_variant_change`, `enforce_subscription_status_transition`,
`prevent_user_id_change`, `set_updated_at`) — together with the pure parts of
the client (`sanitizeText`, the feedback gate, the post-`initial` step choice
of `handleOptionSelect`, and the payload mapping of `saveFoundJobAnswersRpc`).

SQL tables become lists of records, `NOW()` becomes an explicit `now : Nat`
argument, `gen_random_uuid()` becomes a fresh-id counter, and every plpgsql
`RAISE EXCEPTION` becomes an `Except` error.  The `md5`-based tie-break byte
of `assign_balanced_downsell` is an opaque external primitive, so it is a
function parameter `md5b0 : String → Nat`.
-/

set_option maxHeartbeats 1000000

open scoped List

/-- Experiment arm, `downsell_variant TEXT CHECK (downsell_variant IN ('A','B'))`. -/
inductive Variant where
  | A
  | B
deriving DecidableEq, Repr

/-- `subscriptions.status TEXT CHECK (status IN ('active','pending_cancellation','cancelled'))`. -/
inductive SubStatus where
  | active
  | pending_cancellation
  | cancelled
deriving DecidableEq, Repr

/-- Errors raised by the storage layer (`RAISE EXCEPTION` in the plpgsql code),
named after the spec's error taxonomy:
`forbidden` ↔ PermissionDenied, `invalidTransition` ↔ InvalidTransition
("invalid status transition: % -> %"), `immutableFieldViolation` ↔
ImmutableFieldViolation ("downsell_variant is immutable after initial set"),
`userIdImmutable` ↔ the "user_id is immutable" exception. -/
inductive SqlError where
  | forbidden
  | invalidTransition (fromStatus toStatus : SubStatus)
  | immutableFieldViolation
  | userIdImmutable
deriving DecidableEq, Repr

/-- A row of the `subscriptions` table (seed.sql). -/
structure SubscriptionRow where
  id : Nat
  user_id : String
  monthly_price : Int
  status : SubStatus
  created_at : Nat
  updated_at : Nat
deriving DecidableEq, Repr

/-- A row of the `cancellations` table (seed.sql, full schema with survey
columns). `NULL`able columns are `Option`s; `accepted_downsell` defaults to
`FALSE`, hence plain `Bool`. -/
structure CancellationRow where
  id : Nat
  user_id : String
  subscription_id : Option Nat
  downsell_variant : Option Variant
  attributed_to_mm : Option Bool
  applied_count : Option String
  emailed_count : Option String
  interview_count : Option String
  reason : Option String
  accepted_downsell : Bool
  visa_has_lawyer : Option Bool
  visa_type : Option String
  created_at : Nat
deriving DecidableEq, Repr

/-- The persistent store: both tables plus a fresh-id source standing in for
`gen_random_uuid()`. -/
structure DB where
  subscriptions : List SubscriptionRow
  cancellations : List CancellationRow
  next_id : Nat
deriving DecidableEq, Repr

/-- `mapM` over `Except`, written with explicit matches so that proofs can
unfold it step by step (an UPDATE touching several rows aborts wholesale as
soon as one row's trigger raises). -/
def mapExcept (f : α → Except SqlError β) : List α → Except SqlError (List β)
  | [] => .ok []
  | a :: as =>
    match f a with
    | .error e => .error e
    | .ok b =>
      match mapExcept f as with
      | .error e => .error e
      | .ok bs => .ok (b :: bs)

/-- Trigger `public.prevent_variant_change` (seed.sql, latest version):
on UPDATE, setting the variant once from NULL is allowed, any other change of
`downsell_variant` raises "downsell_variant is immutable after initial set". -/
def prevent_variant_change (oldV newV : Option Variant) : Except SqlError (Option Variant) :=
  if oldV = none ∧ newV ≠ none then .ok newV
  else if newV ≠ oldV then .error .immutableFieldViolation
  else .ok newV

/-- The rows of the `subscription_status_transitions` table, exactly as seeded
by seed.sql. -/
def subscription_status_transitions : List (SubStatus × SubStatus) :=
  [(.active, .pending_cancellation),
   (.pending_cancellation, .cancelled),
   (.pending_cancellation, .active),
   (.active, .cancelled)]

/-- Trigger `public.enforce_subscription_status_transition` (seed.sql):
same-status updates pass through; otherwise the pair must be in the
`subscription_status_transitions` table, else
"invalid status transition: % -> %" is raised. -/
def enforce_subscription_status_transition (oldS newS : SubStatus) :
    Except SqlError SubStatus :=
  if newS = oldS then .ok newS
  else if (oldS, newS) ∈ subscription_status_transitions then .ok newS
  else .error (.invalidTransition oldS newS)

/-- Trigger `public.prevent_user_id_change` (seed.sql): on UPDATE, a changed
`user_id` raises "user_id is immutable". -/
def prevent_user_id_change (oldUid newUid : String) : Except SqlError Unit :=
  if newUid ≠ oldUid then .error .userIdImmutable else .ok ()

/-- A generic UPDATE of one `subscriptions` row through its BEFORE UPDATE
triggers (seed.sql): the status-transition guard, `set_updated_at`
(`NEW.updated_at = now()`), and the user-id guard. -/
def update_subscription_row (now : Nat) (oldRow newRow : SubscriptionRow) :
    Except SqlError SubscriptionRow :=
  match enforce_subscription_status_transition oldRow.status newRow.status with
  | .error e => .error e
  | .ok st =>
    match prevent_user_id_change oldRow.user_id newRow.user_id with
    | .error e => .error e
    | .ok _ => .ok { newRow with status := st, updated_at := now }

/-- A generic UPDATE of one `cancellations` row through its BEFORE UPDATE
triggers (seed.sql): the user-id guard and the variant guard. -/
def update_cancellation_row (oldRow newRow : CancellationRow) :
    Except SqlError CancellationRow :=
  match prevent_user_id_change oldRow.user_id newRow.user_id with
  | .error e => .error e
  | .ok _ =>
    match prevent_variant_change oldRow.downsell_variant newRow.downsell_variant with
    | .error e => .error e
    | .ok v => .ok { newRow with downsell_variant := v }

/-- `ORDER BY s.created_at DESC, s.id DESC LIMIT 1` over one user's
subscriptions: keep the row maximal in the lexicographic
(`created_at`, `id`) order. -/
def pickLaterSub (acc : Option SubscriptionRow) (r : SubscriptionRow) :
    Option SubscriptionRow :=
  match acc with
  | none => some r
  | some a =>
    if r.created_at > a.created_at ∨ (r.created_at = a.created_at ∧ r.id > a.id)
    then some r else some a

/-- `SELECT … FROM subscriptions WHERE user_id = uid ORDER BY created_at DESC,
id DESC LIMIT 1` (used by `assign_balanced_downsell` and
`fetch_latest_subscription`). -/
def latestSubscription (uid : String) (subs : List SubscriptionRow) :
    Option SubscriptionRow :=
  (subs.filter (fun s => s.user_id = uid)).foldl pickLaterSub none

/-- `ORDER BY c.created_at DESC LIMIT 1`: keep the row with maximal
`created_at` (first one wins on a tie, matching a stable sort). -/
def pickLaterCan (acc : Option CancellationRow) (r : CancellationRow) :
    Option CancellationRow :=
  match acc with
  | none => some r
  | some a => if r.created_at > a.created_at then some r else some a

/-- `SELECT c.id, c.downsell_variant FROM cancellations WHERE user_id = uid
ORDER BY created_at DESC LIMIT 1` (used by `assign_balanced_downsell`). -/
def latestCancellation (uid : String) (cans : List CancellationRow) :
    Option CancellationRow :=
  (cans.filter (fun c => c.user_id = uid)).foldl pickLaterCan none

/-- `COUNT(*) FILTER (WHERE c.downsell_variant = 'A')` over the whole table. -/
def countA (cans : List CancellationRow) : Nat :=
  cans.countP (fun c => c.downsell_variant = some Variant.A)

/-- `COUNT(*) FILTER (WHERE c.downsell_variant = 'B')` over the whole table. -/
def countB (cans : List CancellationRow) : Nat :=
  cans.countP (fun c => c.downsell_variant = some Variant.B)

/-- The UPDATE of `assign_balanced_downsell` that marks the user's latest
subscription `pending_cancellation` unless it is already `cancelled`
(`SET status = CASE WHEN status <> 'cancelled' THEN 'pending_cancellation'
ELSE status END WHERE id = v_sub_id`), run through the subscriptions
triggers (transition guard and `set_updated_at`). -/
def markPendingUnlessCancelled (now : Nat) (target : Option Nat)
    (subs : List SubscriptionRow) : Except SqlError (List SubscriptionRow) :=
  mapExcept
    (fun s =>
      if target = some s.id then
        let newStatus := if s.status ≠ SubStatus.cancelled
          then SubStatus.pending_cancellation else s.status
        match enforce_subscription_status_transition s.status newStatus with
        | .error e => .error e
        | .ok st => .ok { s with status := st, updated_at := now }
      else .ok s)
    subs

/-- `UPDATE cancellations SET downsell_variant = v WHERE id = cid`, run
through the `prevent_variant_change` trigger on every matched row. -/
def setDownsellVariant (cid : Nat) (newV : Option Variant)
    (cans : List CancellationRow) : Except SqlError (List CancellationRow) :=
  mapExcept
    (fun c =>
      if c.id = cid then
        match prevent_variant_change c.downsell_variant newV with
        | .error e => .error e
        | .ok v => .ok { c with downsell_variant := v }
      else .ok c)
    cans

/-- A fresh `cancellations` row as INSERTed by `assign_balanced_downsell`
(`INSERT INTO cancellations (user_id, subscription_id) VALUES …`): variant
and all survey columns NULL, `accepted_downsell` FALSE. -/
def newCancellationRow (fresh : Nat) (uid : String) (subId : Option Nat)
    (now : Nat) : CancellationRow :=
  { id := fresh, user_id := uid, subscription_id := subId,
    downsell_variant := none, attributed_to_mm := none, applied_count := none,
    emailed_count := none, interview_count := none, reason := none,
    accepted_downsell := false, visa_has_lawyer := none, visa_type := none,
    created_at := now }

/-- The demo-bypass permission check of the RPCs that take a user id:
`IF v_uid IS NOT NULL AND v_uid <> p_user_id THEN RAISE EXCEPTION 'forbidden'`. -/
def authForbids (auth : Option String) (uid : String) : Bool :=
  match auth with
  | some a => a ≠ uid
  | none => false

/-- The demo-bypass permission check of the RPCs that look up the record
owner: `IF auth.uid() IS NOT NULL AND v_user <> auth.uid() THEN RAISE …`
(with a NULL `v_user` comparing as unknown, hence no exception). -/
def authForbidsOwner (auth owner : Option String) : Bool :=
  match auth, owner with
  | some a, some u => u ≠ a
  | _, _ => false

/-- RPC `public.assign_balanced_downsell(p_user_id uuid)` (seed.sql), the
Experiment Assignment Service.  `md5b0 uid` stands for
`get_byte(decode(md5(p_user_id::text),'hex'),0)`; `auth` is `auth.uid()`;
`now` is `NOW()`.  Returns `(cancellation_id, downsell_variant)` plus the
updated store. -/
def assign_balanced_downsell (md5b0 : String → Nat) (auth : Option String)
    (p_user_id : String) (now : Nat) (db : DB) :
    Except SqlError ((Nat × Option Variant) × DB) :=
  -- demo bypass: allow anonymous; enforce when signed-in
  if authForbids auth p_user_id then .error .forbidden
  else
    let v_sub_id : Option Nat := (latestSubscription p_user_id db.subscriptions).map (·.id)
    match markPendingUnlessCancelled now v_sub_id db.subscriptions with
    | .error e => .error e
    | .ok subs1 =>
      match latestCancellation p_user_id db.cancellations with
      | some c =>
        match c.downsell_variant with
        | some v =>
          .ok ((c.id, some v),
            { subscriptions := subs1, cancellations := db.cancellations,
              next_id := db.next_id })
        | none =>
          let cnt_a := countA db.cancellations
          let cnt_b := countB db.cancellations
          let v := if cnt_a > cnt_b then Variant.B
            else if cnt_b > cnt_a then Variant.A
            else if md5b0 p_user_id % 2 = 0 then Variant.A else Variant.B
          match setDownsellVariant c.id (some v) db.cancellations with
          | .error e => .error e
          | .ok cans2 =>
            .ok ((c.id, some v),
              { subscriptions := subs1, cancellations := cans2,
                next_id := db.next_id })
      | none =>
        let cid := db.next_id
        let cans1 := db.cancellations ++ [newCancellationRow cid p_user_id v_sub_id now]
        let cnt_a := countA cans1
        let cnt_b := countB cans1
        let v := if cnt_a > cnt_b then Variant.B
          else if cnt_b > cnt_a then Variant.A
          else if md5b0 p_user_id % 2 = 0 then Variant.A else Variant.B
        match setDownsellVariant cid (some v) cans1 with
        | .error e => .error e
        | .ok cans2 =>
          .ok ((cid, some v),
            { subscriptions := subs1, cancellations := cans2,
              next_id := db.next_id + 1 })

/-- Run `assign_balanced_downsell` once per user, sequentially (no concurrent
races), with anonymous auth and the clock ticking between calls. -/
def runAssignSeq (md5b0 : String → Nat) : List String → Nat → DB → Except SqlError DB
  | [], _, db => .ok db
  | u :: us, now, db =>
    match assign_balanced_downsell md5b0 none u now db with
    | .error e => .error e
    | .ok (_, db') => runAssignSeq md5b0 us (now + 1) db'

/-- `NULLIF(x, '')` on a nullable text argument. -/
def nullifEmpty : Option String → Option String
  | none => none
  | some s => if s = "" then none else some s

/-- RPC `public.save_found_job_answers` (seed.sql): looks up the row's owner,
applies the demo-bypass permission check, then unconditionally overwrites the
five survey columns (`attributed_to_mm`, `applied_count`, `emailed_count`,
`interview_count`, `reason`) of the matched row, empty strings becoming NULL.
The UPDATE runs through the `prevent_variant_change` trigger (which passes,
since the variant is untouched). -/
def save_found_job_answers (auth : Option String) (p_cancellation_id : Nat)
    (p_attributed_to_mm : Option Bool)
    (p_applied p_emailed p_interview p_reason : Option String)
    (db : DB) : Except SqlError DB :=
  let v_user : Option String :=
    ((db.cancellations.filter (fun c => c.id = p_cancellation_id)).head?).map (·.user_id)
  if authForbidsOwner auth v_user then .error .forbidden
  else
    match mapExcept
      (fun c =>
        if c.id = p_cancellation_id then
          match prevent_variant_change c.downsell_variant c.downsell_variant with
          | .error e => .error e
          | .ok v =>
            .ok { c with
              downsell_variant := v,
              attributed_to_mm := p_attributed_to_mm,
              applied_count := nullifEmpty p_applied,
              emailed_count := nullifEmpty p_emailed,
              interview_count := nullifEmpty p_interview,
              reason := nullifEmpty p_reason }
        else .ok c)
      db.cancellations with
    | .error e => .error e
    | .ok cans' =>
      .ok { subscriptions := db.subscriptions, cancellations := cans',
            next_id := db.next_id }

/-- `SELECT … FROM cancellations WHERE id = cid LIMIT 1` — the read-back used
by `fetchCancellationAnswers` / `fetch_cancellation_answers`. -/
def fetchCancellationAnswers (cid : Nat) (db : DB) : Option CancellationRow :=
  (db.cancellations.filter (fun c => c.id = cid)).head?

/-- JS `\s` / `String.prototype.trim` whitespace, restricted to the ASCII
whitespace characters (space, tab, newline, carriage return, vertical tab,
form feed). -/
def isJsWs (c : Char) : Bool :=
  c = ' ' ∨ c = '\t' ∨ c = '\n' ∨ c = '\r' ∨ c = '\x0b' ∨ c = '\x0c'

/-- `input.replace(/<[^>]*>/g, '')`, as a character-level state machine.
In state `none` characters are copied; a `<` opens a candidate tag whose
characters accumulate (reversed) in `some pending`; a `>` closes and discards
the whole candidate; an unclosed candidate is emitted verbatim at the end
(the regex does not match a `<` with no later `>`). -/
def stripTagsGo : List Char → Option (List Char) → List Char
  | [], none => []
  | [], some pending => '<' :: pending.reverse
  | c :: rest, none =>
    if c = '<' then stripTagsGo rest (some [])
    else c :: stripTagsGo rest none
  | c :: rest, some pending =>
    if c = '>' then stripTagsGo rest none
    else stripTagsGo rest (some (c :: pending))

/-- Tag stripping, first stage of `sanitizeText`. -/
def stripTags (l : List Char) : List Char := stripTagsGo l none

/-- Case-insensitive match of a (lower-case) pattern against the start of the
text, mirroring a `/…/gi` literal-string regex. -/
def lcMatches : List Char → List Char → Bool
  | [], _ => true
  | _ :: _, [] => false
  | p :: ps, c :: cs => Char.toLower c = p ∧ lcMatches ps cs

/-- `text.replace(/pat/gi, '')` for a literal pattern: scan left to right,
deleting each non-overlapping occurrence.  The fuel argument (instantiated
with the text length) only serves structural termination. -/
def stripPatAux (pat : List Char) : Nat → List Char → List Char
  | _, [] => []
  | 0, l => l
  | n + 1, c :: cs =>
    if lcMatches pat (c :: cs) then stripPatAux pat n ((c :: cs).drop pat.length)
    else c :: stripPatAux pat n cs

/-- `text.replace(/pat/gi, '')` for a literal (lower-case) pattern. -/
def stripPat (pat l : List Char) : List Char := stripPatAux pat l.length l

/-- Does a case-insensitive occurrence of the pattern start anywhere in the
text? -/
def containsPat (pat : List Char) : List Char → Bool
  | [] => pat.isEmpty
  | c :: cs => lcMatches pat (c :: cs) ∨ containsPat pat cs

/-- The `/javascript:/gi` pattern of `sanitizeText`. -/
def jsScheme : List Char := "javascript:".toList

/-- The `/data:text\/html/gi` pattern of `sanitizeText`. -/
def dataScheme : List Char := "data:text/html".toList

/-- `text.replace(/\s+/g, ' ')`: each maximal whitespace run becomes a single
space.  The flag records whether the previous character was whitespace. -/
def collapseWsGo : List Char → Bool → List Char
  | [], _ => []
  | c :: rest, inWs =>
    if isJsWs c then
      if inWs then collapseWsGo rest true
      else ' ' :: collapseWsGo rest true
    else c :: collapseWsGo rest false

/-- `text.replace(/\s+/g, ' ')`. -/
def collapseWs (l : List Char) : List Char := collapseWsGo l false

/-- `text.trim()` on the character list. -/
def trimWs (l : List Char) : List Char :=
  (((l.dropWhile isJsWs).reverse).dropWhile isJsWs).reverse

/-- `MAX_TEXT_LEN = 1000` (CancellationModal.tsx). -/
def MAX_TEXT_LEN : Nat := 1000

/-- `sanitizeText` (CancellationModal.tsx): empty in, empty out; otherwise
strip tags, delete script-like URL schemes, collapse whitespace, trim and
clamp to `MAX_TEXT_LEN` units. -/
def sanitizeTextL (input : List Char) : List Char :=
  if input.isEmpty then []
  else
    (trimWs (collapseWs (stripPat dataScheme (stripPat jsScheme
      (stripTags input))))).take MAX_TEXT_LEN

/-- `sanitizeText` on `String`s. -/
def sanitizeText (s : String) : String := ⟨sanitizeTextL s.data⟩

/-- `MIN_FEEDBACK = 25` (CancellationModal.tsx). -/
def MIN_FEEDBACK : Nat := 25

/-- The `disabled` condition of the feedback step's Continue button
(CancellationModal.tsx line 1184): `feedback.trim().length < MIN_FEEDBACK`.
Note it tests the *trimmed raw* text, not the sanitized text shown by the
adjacent character counter. -/
def feedbackContinueDisabled (feedback : String) : Bool :=
  (trimWs feedback.data).length < MIN_FEEDBACK

/-- The two branch choices offered at the wizard's `initial` state. -/
inductive WizardOption where
  | foundJob
  | stillLooking
deriving DecidableEq, Repr

/-- The wizard states of `CancellationModal.tsx` (`CancellationStep`). -/
inductive CancellationStep where
  | initial
  | jobStatus
  | downsell
  | downsellAccepted
  | usingStep
  | reasons
  | feedback
  | confirmation
  | completed
deriving DecidableEq, Repr

/-- The state `handleOptionSelect` moves to after `initial`
(CancellationModal.tsx lines 275–282 and 293–298).  Both the prefill-reuse
path and the post-RPC path compute `found-job → job-status` and
`still-looking → (variant === 'B' ? 'downsell' : 'using')`.  The
`acceptedDownsell` component state is in scope there but not consulted; the
parameter is kept so that theorems can quantify over it. -/
def handleOptionSelectNextStep (option : WizardOption)
    (downsellVariant : Option Variant) (acceptedDownsell : Bool) :
    CancellationStep :=
  match option with
  | .foundJob => .jobStatus
  | .stillLooking =>
    if downsellVariant = some Variant.B then .downsell else .usingStep

/-- The payload type of `saveFoundJobAnswersRpc` (lib/supabase.ts): the three
bucket fields use `''` for "unset", `attributed_to_mm` is nullable, `reason`
is optional. -/
structure DraftPayload where
  attributed_to_mm : Option Bool
  applied_count : String
  emailed_count : String
  interview_count : String
  reason : Option String
deriving DecidableEq, Repr

/-- The client-side argument mapping of `saveFoundJobAnswersRpc`
(lib/supabase.ts): empty bucket strings become NULL
(`payload.applied_count === '' ? null : …`), and
`reason: (payload.reason ?? '').trim() || null`. -/
def emptyToNull (s : String) : Option String :=
  if s = "" then none else some s

/-- `(payload.reason ?? '').trim() || null` from `saveFoundJobAnswersRpc`. -/
def trimReasonOrNull (r : Option String) : Option String :=
  let t : String := ⟨trimWs (r.getD "").data⟩
  if t = "" then none else some t

/-- `saveFoundJobAnswersRpc` (lib/supabase.ts) composed with the
`save_found_job_answers` RPC it invokes. -/
def saveFoundJobAnswersRpc (auth : Option String) (cancellationId : Nat)
    (payload : DraftPayload) (db : DB) : Except SqlError DB :=
  save_found_job_answers auth cancellationId payload.attributed_to_mm
    (emptyToNull payload.applied_count) (emptyToNull payload.emailed_count)
    (emptyToNull payload.interview_count) (trimReasonOrNull payload.reason) db

deriving instance DecidableEq for Except

/-! ### Helper lemmas about `mapExcept` -/

theorem mapExcept_eq_map {f : α → Except SqlError β} {g : α → β} :
    ∀ {l : List α}, (∀ a ∈ l, f a = .ok (g a)) → mapExcept f l = .ok (l.map g) := by
  intro l
  induction l with
  | nil => intro _; rfl
  | cons x xs ih =>
    intro h
    have hx := h x (List.mem_cons_self x xs)
    have hxs := ih (fun a ha => h a (List.mem_cons_of_mem x ha))
    simp [mapExcept, hx, hxs]

theorem mapExcept_error_of_mem {f : α → Except SqlError β} {E : SqlError}
    {a : α} : ∀ {l : List α}, a ∈ l → (∀ b, f a ≠ .ok b) →
    (∀ x ∈ l, ∀ e, f x = .error e → e = E) → mapExcept f l = .error E := by
  intro l
  induction l with
  | nil => intro h; cases h
  | cons x xs ih =>
    intro hmem hfa hall
    rcases List.mem_cons.mp hmem with rfl | hmem'
    · cases hfx : f a with
      | error e =>
        have : e = E := hall a (List.mem_cons_self a xs) e hfx
        subst this
        simp [mapExcept, hfx]
      | ok b => exact absurd hfx (hfa b)
    · cases hfx : f x with
      | error e =>
        have : e = E := hall x (List.mem_cons_self x xs) e hfx
        subst this
        simp [mapExcept, hfx]
      | ok b =>
        have hrec := ih hmem' hfa (fun y hy => hall y (List.mem_cons_of_mem x hy))
        simp [mapExcept, hfx, hrec]

theorem mapExcept_ok_of_mem {f : α → Except SqlError β} {l : List α}
    {l' : List β} (h : mapExcept f l = .ok l') :
    ∀ a ∈ l, ∃ b, f a = .ok b := by
  induction l generalizing l' with
  | nil => intro a ha; cases ha
  | cons x xs ih =>
    intro a ha
    cases hfx : f x with
    | error e => simp [mapExcept, hfx] at h
    | ok b =>
      cases hxs : mapExcept f xs with
      | error e => simp [mapExcept, hfx, hxs] at h
      | ok bs =>
        rcases List.mem_cons.mp ha with rfl | ha'
        · exact ⟨b, hfx⟩
        · exact ih hxs a ha'

/-- `prevent_variant_change` raises only ImmutableFieldViolation. -/
theorem prevent_variant_change_error {o n : Option Variant} {e : SqlError}
    (h : prevent_variant_change o n = .error e) : e = .immutableFieldViolation := by
  unfold prevent_variant_change at h
  split at h
  · cases h
  · split at h
    · cases h; rfl
    · cases h

/-- Once set, an attempted change of the variant raises. -/
theorem prevent_variant_change_rejects {w : Variant} {newV : Option Variant}
    (hdiff : newV ≠ some w) :
    prevent_variant_change (some w) newV = .error .immutableFieldViolation := by
  unfold prevent_variant_change
  simp [hdiff]

/-- Sample rows used for concrete instantiations. -/
def sampleCan : CancellationRow :=
  { id := 0, user_id := "u1", subscription_id := none,
    downsell_variant := some Variant.A, attributed_to_mm := none,
    applied_count := none, emailed_count := none, interview_count := none,
    reason := none, accepted_downsell := false, visa_has_lawyer := none,
    visa_type := none, created_at := 0 }

def sampleSub : SubscriptionRow :=
  { id := 0, user_id := "u1", monthly_price := 2500, status := SubStatus.active,
    created_at := 0, updated_at := 0 }

/-! ### C3 — arm immutability at the storage boundary -/

/-- C3: once a Cancellation's `downsell_variant` is set to `A` or `B`, any
UPDATE that tries to persist a different arm for that record fails with
ImmutableFieldViolation, enforced by the `prevent_variant_change` trigger
regardless of caller (the trigger sees no caller identity). -/
theorem c3_arm_immutable (cans : List CancellationRow) (cid : Nat)
    (w : Variant) (newV : Option Variant) (c : CancellationRow)
    (hc : c ∈ cans) (hid : c.id = cid) (hset : c.downsell_variant = some w)
    (hdiff : newV ≠ some w) :
    setDownsellVariant cid newV cans = .error .immutableFieldViolation := by
  unfold setDownsellVariant
  apply mapExcept_error_of_mem hc
  · intro b hb
    rw [if_pos hid, hset, prevent_variant_change_rejects hdiff] at hb
    cases hb
  · intro x _ e hx
    by_cases hxid : x.id = cid
    · rw [if_pos hxid] at hx
      cases hpv : prevent_variant_change x.downsell_variant newV with
      | error e' =>
        rw [hpv] at hx
        cases hx
        exact prevent_variant_change_error hpv
      | ok v => rw [hpv] at hx; cases hx
    · rw [if_neg hxid] at hx; cases hx

/-- C3 witness: a concrete record with arm `A` rejects an update to arm `B`. -/
theorem c3_arm_immutable_witness :
    setDownsellVariant 0 (some Variant.B) [sampleCan] =
      .error .immutableFieldViolation :=
  c3_arm_immutable [sampleCan] 0 Variant.A (some Variant.B) sampleCan
    (by decide) (by decide) (by decide) (by decide)

/-! ### C4 — subscription status transition legality -/

/-- C4: for every pair of statuses `(f, t)` with `f ≠ t` that is not in the
allowed transition table (`active→pending_cancellation`, `active→cancelled`,
`pending_cancellation→cancelled`, `pending_cancellation→active`), the guard
rejects the UPDATE with InvalidTransition — in particular every transition
out of `cancelled` — while a same-status update always passes through
unchanged. -/
theorem c4_transition_legality (f t : SubStatus) :
    (f ≠ t → (f, t) ∉ subscription_status_transitions →
      enforce_subscription_status_transition f t =
        .error (.invalidTransition f t))
    ∧ enforce_subscription_status_transition f f = .ok f := by
  constructor
  · intro h1 h2
    cases f <;> cases t <;>
      first
      | exact absurd rfl h1
      | exact absurd (by decide) h2
      | decide
  · simp [enforce_subscription_status_transition]

/-- C4 witness: `cancelled → active` is rejected, `cancelled → cancelled`
is a no-op. -/
theorem c4_transition_legality_witness :
    enforce_subscription_status_transition SubStatus.cancelled SubStatus.active =
      .error (.invalidTransition SubStatus.cancelled SubStatus.active) :=
  (c4_transition_legality SubStatus.cancelled SubStatus.active).1
    (by decide) (by decide)

/-! ### C7 — next state after `initial` on `still_looking` -/

/-- C7 counterexample: a resuming arm-B user whose downsell was already
accepted (`acceptedDownsell = true`) still gets routed to the `downsell`
state, not directly to `using` as the claim demands. -/
theorem c7_counterexample :
    handleOptionSelectNextStep WizardOption.stillLooking (some Variant.B) true =
        CancellationStep.downsell ∧
      handleOptionSelectNextStep WizardOption.stillLooking (some Variant.B) true ≠
        CancellationStep.usingStep := by
  decide

/-- C7 amended: after `initial` with `still_looking`, the next state is
`downsell` exactly when the assigned arm is `B` — regardless of whether the
downsell was already accepted; any other variant value (in particular arm
`A`) goes directly to `using`, so an arm-A user never sees the offer. -/
theorem c7_amended (v : Option Variant) (acc : Bool) :
    (handleOptionSelectNextStep WizardOption.stillLooking v acc =
        CancellationStep.downsell ↔ v = some Variant.B)
    ∧ handleOptionSelectNextStep WizardOption.stillLooking (some Variant.A) acc =
        CancellationStep.usingStep := by
  constructor
  · unfold handleOptionSelectNextStep
    by_cases hv : v = some Variant.B <;> simp [hv]
  · rfl

/-! ### C10 — owning user id is immutable -/

/-- C10: any UPDATE of a Subscription or Cancellation row that changes
`user_id` is rejected by the `prevent_user_id_change` trigger at the storage
boundary, so no operation can re-home a record to another user. -/
theorem c10_user_id_immutable (now : Nat) (so sn : SubscriptionRow)
    (co cn : CancellationRow) (hs : sn.user_id ≠ so.user_id)
    (hc : cn.user_id ≠ co.user_id) :
    (∃ e, update_subscription_row now so sn = .error e)
    ∧ update_cancellation_row co cn = .error .userIdImmutable := by
  constructor
  · cases henf : enforce_subscription_status_transition so.status sn.status with
    | error e => exact ⟨e, by simp [update_subscription_row, henf]⟩
    | ok st =>
      refine ⟨.userIdImmutable, ?_⟩
      simp [update_subscription_row, henf, prevent_user_id_change, hs]
  · simp [update_cancellation_row, prevent_user_id_change, hc]

/-- C10 witness: re-homing concrete rows from `"u1"` to `"u2"` fails on both
tables. -/
theorem c10_user_id_immutable_witness :
    (∃ e, update_subscription_row 5 sampleSub { sampleSub with user_id := "u2" } =
      .error e)
    ∧ update_cancellation_row sampleCan { sampleCan with user_id := "u2" } =
      .error .userIdImmutable :=
  c10_user_id_immutable 5 sampleSub { sampleSub with user_id := "u2" }
    sampleCan { sampleCan with user_id := "u2" } (by decide) (by decide)

/-! ### The subscription-marking UPDATE always succeeds -/

/-- The row transformation performed by the `assign_balanced_downsell`
subscription UPDATE (status CASE plus `set_updated_at`) on a matched row. -/
def markRow (now : Nat) (target : Option Nat) (s : SubscriptionRow) :
    SubscriptionRow :=
  if target = some s.id then
    { s with
      status := if s.status ≠ SubStatus.cancelled
        then SubStatus.pending_cancellation else s.status,
      updated_at := now }
  else s

theorem enforce_mark (st : SubStatus) :
    enforce_subscription_status_transition st
      (if st ≠ SubStatus.cancelled then SubStatus.pending_cancellation else st) =
    .ok (if st ≠ SubStatus.cancelled then SubStatus.pending_cancellation else st) := by
  cases st <;> decide

theorem markPending_eq (now : Nat) (target : Option Nat)
    (subs : List SubscriptionRow) :
    markPendingUnlessCancelled now target subs =
      .ok (subs.map (markRow now target)) := by
  apply mapExcept_eq_map
  intro s _
  unfold markRow
  by_cases h : target = some s.id
  · simp only [h, if_pos, enforce_mark]
  · simp only [if_neg h]

/-! ### Facts about `latestCancellation` -/

theorem foldl_pickLaterCan_result :
    ∀ (l : List CancellationRow) (acc : Option CancellationRow)
      (c : CancellationRow), l.foldl pickLaterCan acc = some c →
      acc = some c ∨ c ∈ l := by
  intro l
  induction l with
  | nil => intro acc c h; exact Or.inl h
  | cons x xs ih =>
    intro acc c h
    rcases ih (pickLaterCan acc x) c h with hacc | hmem
    · cases acc with
      | none =>
        cases hacc
        exact Or.inr (List.mem_cons_self x xs)
      | some a =>
        have hred : pickLaterCan (some a) x =
            if x.created_at > a.created_at then some x else some a := rfl
        rw [hred] at hacc
        by_cases hcond : x.created_at > a.created_at
        · rw [if_pos hcond] at hacc
          cases hacc
          exact Or.inr (List.mem_cons_self x xs)
        · rw [if_neg hcond] at hacc
          exact Or.inl hacc
    · exact Or.inr (List.mem_cons_of_mem x hmem)

theorem latestCancellation_mem {uid : String} {l : List CancellationRow}
    {c : CancellationRow} (h : latestCancellation uid l = some c) : c ∈ l := by
  unfold latestCancellation at h
  rcases foldl_pickLaterCan_result _ none c h with h' | h'
  · cases h'
  · exact List.mem_of_mem_filter h'

theorem latestCancellation_user {uid : String} {l : List CancellationRow}
    {c : CancellationRow} (h : latestCancellation uid l = some c) :
    c.user_id = uid := by
  unfold latestCancellation at h
  rcases foldl_pickLaterCan_result _ none c h with h' | h'
  · cases h'
  · exact of_decide_eq_true (List.mem_filter.mp h').2

theorem latestCancellation_eq_none {uid : String} {l : List CancellationRow}
    (h : ∀ c ∈ l, c.user_id ≠ uid) : latestCancellation uid l = none := by
  unfold latestCancellation
  have : l.filter (fun c => c.user_id = uid) = [] := by
    apply List.filter_eq_nil_iff.mpr
    intro c hc
    simp [h c hc]
  rw [this]
  rfl

/-! ### Count lemmas -/

theorem countA_append (l l' : List CancellationRow) :
    countA (l ++ l') = countA l + countA l' := List.countP_append _ _ _

theorem countB_append (l l' : List CancellationRow) :
    countB (l ++ l') = countB l + countB l' := List.countP_append _ _ _

theorem countA_single_none {r : CancellationRow}
    (h : r.downsell_variant = none) : countA [r] = 0 := by
  simp [countA, List.countP, List.countP.go, h]

theorem countB_single_none {r : CancellationRow}
    (h : r.downsell_variant = none) : countB [r] = 0 := by
  simp [countB, List.countP, List.countP.go, h]

/-- When every row matching the target id still has a NULL variant, the
variant UPDATE succeeds and sets exactly the matched rows. -/
theorem setDownsellVariant_eq_map {cid : Nat} {newV : Option Variant}
    {cans : List CancellationRow}
    (h : ∀ r ∈ cans, r.id = cid → r.downsell_variant = none)
    (hne : newV ≠ none) :
    setDownsellVariant cid newV cans =
      .ok (cans.map (fun r =>
        if r.id = cid then { r with downsell_variant := newV } else r)) := by
  apply mapExcept_eq_map
  intro r hr
  by_cases hid : r.id = cid
  · have hv := h r hr hid
    have hpv : prevent_variant_change r.downsell_variant newV = .ok newV := by
      unfold prevent_variant_change
      rw [if_pos ⟨hv, hne⟩]
    simp only [if_pos hid, hpv]
  · simp only [if_neg hid]

/-! ### C2 — minority-biased assignment with deterministic tie-break -/

/-- C2: when `assignArm` runs for a user whose latest Cancellation has no arm
yet (or who has none at all), the arm persisted and returned is the minority
arm over the whole population's counts; on a tie it is the deterministic
`md5`-hash bit of the user id, not fresh randomness. -/
theorem c2_minority_assignment (md5b0 : String → Nat) (uid : String)
    (now : Nat) (db : DB)
    (hfresh : ∀ c ∈ db.cancellations, c.id < db.next_id)
    (huniq : ∀ c1 ∈ db.cancellations, ∀ c2 ∈ db.cancellations,
      c1.id = c2.id → c1 = c2)
    (hnoarm : ∀ c ∈ db.cancellations, c.user_id = uid →
      c.downsell_variant = none) :
    ∃ cid v db',
      assign_balanced_downsell md5b0 none uid now db = .ok ((cid, some v), db')
      ∧ (countA db.cancellations > countB db.cancellations → v = Variant.B)
      ∧ (countB db.cancellations > countA db.cancellations → v = Variant.A)
      ∧ (countA db.cancellations = countB db.cancellations →
          v = (if md5b0 uid % 2 = 0 then Variant.A else Variant.B)) := by
  have hauth : authForbids none uid = false := rfl
  cases hlat : latestCancellation uid db.cancellations with
  | some c =>
    have hvar : c.downsell_variant = none :=
      hnoarm c (latestCancellation_mem hlat) (latestCancellation_user hlat)
    have hmemc : c ∈ db.cancellations := latestCancellation_mem hlat
    set vE := if countA db.cancellations > countB db.cancellations then Variant.B
      else if countB db.cancellations > countA db.cancellations then Variant.A
      else if md5b0 uid % 2 = 0 then Variant.A else Variant.B with hvE
    have hset : setDownsellVariant c.id (some vE) db.cancellations =
        .ok (db.cancellations.map (fun r =>
          if r.id = c.id then { r with downsell_variant := some vE } else r)) := by
      apply setDownsellVariant_eq_map
      · intro r hr hid
        have : r = c := huniq r hr c hmemc hid
        rw [this, hvar]
      · simp
    have hmain : assign_balanced_downsell md5b0 none uid now db =
        .ok ((c.id, some vE),
          { subscriptions := db.subscriptions.map (markRow now
              ((latestSubscription uid db.subscriptions).map (·.id))),
            cancellations := db.cancellations.map (fun r =>
              if r.id = c.id then { r with downsell_variant := some vE } else r),
            next_id := db.next_id }) := by
      unfold assign_balanced_downsell
      rw [hauth]
      simp only [Bool.false_eq_true, if_false, markPending_eq, hlat, hvar,
        ← hvE, hset]
    refine ⟨c.id, vE, _, hmain, ?_, ?_, ?_⟩
    · intro h; rw [hvE, if_pos h]
    · intro h
      have h' : ¬ countA db.cancellations > countB db.cancellations := by omega
      rw [hvE, if_neg h', if_pos h]
    · intro h
      have h1 : ¬ countA db.cancellations > countB db.cancellations := by omega
      have h2 : ¬ countB db.cancellations > countA db.cancellations := by omega
      rw [hvE, if_neg h1, if_neg h2]
  | none =>
    set v_sub_id := (latestSubscription uid db.subscriptions).map (·.id) with hsub
    set newRow := newCancellationRow db.next_id uid v_sub_id now with hnewRow
    set cans1 := db.cancellations ++ [newRow] with hcans1
    have hnv : newRow.downsell_variant = none := by
      rw [hnewRow]; simp [newCancellationRow]
    have hcA : countA cans1 = countA db.cancellations := by
      rw [hcans1, countA_append, countA_single_none hnv, Nat.add_zero]
    have hcB : countB cans1 = countB db.cancellations := by
      rw [hcans1, countB_append, countB_single_none hnv, Nat.add_zero]
    set vE := if countA cans1 > countB cans1 then Variant.B
      else if countB cans1 > countA cans1 then Variant.A
      else if md5b0 uid % 2 = 0 then Variant.A else Variant.B with hvE
    have hset : setDownsellVariant db.next_id (some vE) cans1 =
        .ok (cans1.map (fun r =>
          if r.id = db.next_id then { r with downsell_variant := some vE }
          else r)) := by
      apply setDownsellVariant_eq_map
      · intro r hr hid
        rw [hcans1] at hr
        rcases List.mem_append.mp hr with hold | hnew
        · exact absurd hid (Nat.ne_of_lt (hfresh r hold))
        · rw [List.mem_singleton.mp hnew]; exact hnv
      · simp
    have hmain : assign_balanced_downsell md5b0 none uid now db =
        .ok ((db.next_id, some vE),
          { subscriptions := db.subscriptions.map (markRow now v_sub_id),
            cancellations := cans1.map (fun r =>
              if r.id = db.next_id then { r with downsell_variant := some vE }
              else r),
            next_id := db.next_id + 1 }) := by
      unfold assign_balanced_downsell
      rw [hauth]
      simp only [Bool.false_eq_true, if_false, markPending_eq, hlat, ← hsub,
        ← hnewRow, ← hcans1, ← hvE, hset]
    refine ⟨db.next_id, vE, _, hmain, ?_, ?_, ?_⟩
    · intro h; rw [hvE, if_pos (by omega : countA cans1 > countB cans1)]
    · intro h
      have h' : ¬ countA cans1 > countB cans1 := by omega
      rw [hvE, if_neg h', if_pos (by omega : countB cans1 > countA cans1)]
    · intro h
      have h1 : ¬ countA cans1 > countB cans1 := by omega
      have h2 : ¬ countB cans1 > countA cans1 := by omega
      rw [hvE, if_neg h1, if_neg h2]

/-- Scenario A's store: five Cancellations already assigned (3 × arm A,
2 × arm B) for other users, none for `"u6"`. -/
def dbScenarioA : DB :=
  { subscriptions := [],
    cancellations :=
      [ { sampleCan with id := 0, user_id := "u1", downsell_variant := some Variant.A },
        { sampleCan with id := 1, user_id := "u2", downsell_variant := some Variant.A },
        { sampleCan with id := 2, user_id := "u3", downsell_variant := some Variant.A },
        { sampleCan with id := 3, user_id := "u4", downsell_variant := some Variant.B },
        { sampleCan with id := 4, user_id := "u5", downsell_variant := some Variant.B } ],
    next_id := 5 }

/-- C2 witness (Scenario A): with global counts A=3, B=2 a fresh user is
assigned arm B. -/
theorem c2_minority_assignment_witness :
    ∃ cid v db',
      assign_balanced_downsell (fun _ => 0) none "u6" 7 dbScenarioA =
        .ok ((cid, some v), db') ∧ v = Variant.B := by
  obtain ⟨cid, v, db', hmain, hAB, _, _⟩ :=
    c2_minority_assignment (fun _ => 0) "u6" 7 dbScenarioA
      (by decide) (by decide) (by decide)
  exact ⟨cid, v, db', hmain, hAB (by decide)⟩

theorem mapIdOn {f : α → α} : ∀ {l : List α}, (∀ a ∈ l, f a = a) → l.map f = l := by
  intro l
  induction l with
  | nil => intro _; rfl
  | cons x xs ih =>
    intro h
    rw [List.map_cons, h x (List.mem_cons_self x xs),
      ih (fun a ha => h a (List.mem_cons_of_mem x ha))]

theorem countA_single (r : CancellationRow) :
    countA [r] = if r.downsell_variant = some Variant.A then 1 else 0 := by
  by_cases h : r.downsell_variant = some Variant.A <;>
    simp [countA, List.countP, List.countP.go, h]

theorem countB_single (r : CancellationRow) :
    countB [r] = if r.downsell_variant = some Variant.B then 1 else 0 := by
  by_cases h : r.downsell_variant = some Variant.B <;>
    simp [countB, List.countP, List.countP.go, h]

/-- One `assign_balanced_downsell` call for a first-time user: it succeeds,
creates exactly one new Cancellation carrying the chosen arm, and chooses the
minority arm. -/
theorem assign_firstTime (md5b0 : String → Nat) (u : String) (now : Nat)
    (db : DB)
    (hfresh : ∀ c ∈ db.cancellations, c.id < db.next_id)
    (hno : ∀ c ∈ db.cancellations, c.user_id ≠ u) :
    ∃ v db',
      assign_balanced_downsell md5b0 none u now db =
        .ok ((db.next_id, some v), db')
      ∧ db'.next_id = db.next_id + 1
      ∧ db'.cancellations = db.cancellations ++
          [{ newCancellationRow db.next_id u
              ((latestSubscription u db.subscriptions).map (·.id)) now with
             downsell_variant := some v }]
      ∧ (countA db.cancellations > countB db.cancellations → v = Variant.B)
      ∧ (countB db.cancellations > countA db.cancellations → v = Variant.A)
      ∧ db'.subscriptions = db.subscriptions.map (markRow now
          ((latestSubscription u db.subscriptions).map (·.id))) := by
  have hauth : authForbids none u = false := rfl
  have hlat : latestCancellation u db.cancellations = none :=
    latestCancellation_eq_none hno
  set v_sub_id := (latestSubscription u db.subscriptions).map (·.id) with hsub
  set newRow := newCancellationRow db.next_id u v_sub_id now with hnewRow
  set cans1 := db.cancellations ++ [newRow] with hcans1
  have hnv : newRow.downsell_variant = none := by
    rw [hnewRow]; simp [newCancellationRow]
  have hcA : countA cans1 = countA db.cancellations := by
    rw [hcans1, countA_append, countA_single_none hnv, Nat.add_zero]
  have hcB : countB cans1 = countB db.cancellations := by
    rw [hcans1, countB_append, countB_single_none hnv, Nat.add_zero]
  set vE := if countA cans1 > countB cans1 then Variant.B
    else if countB cans1 > countA cans1 then Variant.A
    else if md5b0 u % 2 = 0 then Variant.A else Variant.B with hvE
  have hset : setDownsellVariant db.next_id (some vE) cans1 =
      .ok (cans1.map (fun r =>
        if r.id = db.next_id then { r with downsell_variant := some vE }
        else r)) := by
    apply setDownsellVariant_eq_map
    · intro r hr hid
      rw [hcans1] at hr
      rcases List.mem_append.mp hr with hold | hnew
      · exact absurd hid (Nat.ne_of_lt (hfresh r hold))
      · rw [List.mem_singleton.mp hnew]; exact hnv
    · simp
  have hmain : assign_balanced_downsell md5b0 none u now db =
      .ok ((db.next_id, some vE),
        { subscriptions := db.subscriptions.map (markRow now v_sub_id),
          cancellations := cans1.map (fun r =>
            if r.id = db.next_id then { r with downsell_variant := some vE }
            else r),
          next_id := db.next_id + 1 }) := by
    unfold assign_balanced_downsell
    rw [hauth]
    simp only [Bool.false_eq_true, if_false, markPending_eq, hlat, ← hsub,
      ← hnewRow, ← hcans1, ← hvE, hset]
  have hmapcans : cans1.map (fun r =>
      if r.id = db.next_id then { r with downsell_variant := some vE }
      else r) = db.cancellations ++ [{ newRow with downsell_variant := some vE }] := by
    rw [hcans1, List.map_append]
    congr 1
    · apply mapIdOn
      intro a ha
      rw [if_neg (Nat.ne_of_lt (hfresh a ha))]
    · have hid : newRow.id = db.next_id := by rw [hnewRow]; rfl
      simp [hid]
  refine ⟨vE, _, hmain, rfl, ?_, ?_, ?_, rfl⟩
  · exact hmapcans
  · intro h
    rw [hvE, if_pos (by omega : countA cans1 > countB cans1)]
  · intro h
    have h' : ¬ countA cans1 > countB cans1 := by omega
    rw [hvE, if_neg h', if_pos (by omega : countB cans1 > countA cans1)]

/-! ### C1 — global balance invariant -/

/-- C1: after any sequence of first-time `assignArm` calls from distinct
users, run sequentially from a store whose arm counts are balanced (in
particular an empty one), the global counts of arm-A and arm-B Cancellations
still differ by at most 1. -/
theorem c1_balance (md5b0 : String → Nat) (users : List String) :
    ∀ (db : DB) (now : Nat), users.Nodup →
    (∀ u ∈ users, ∀ c ∈ db.cancellations, c.user_id ≠ u) →
    (∀ c ∈ db.cancellations, c.id < db.next_id) →
    ((countA db.cancellations : Int) - countB db.cancellations).natAbs ≤ 1 →
    ∃ db', runAssignSeq md5b0 users now db = .ok db' ∧
      ((countA db'.cancellations : Int) - countB db'.cancellations).natAbs ≤ 1 := by
  induction users with
  | nil =>
    intro db now _ _ _ hbal
    exact ⟨db, rfl, hbal⟩
  | cons u us ih =>
    intro db now hnodup hfirst hfresh hbal
    obtain ⟨v, db1, hmain, hnid, hcans, hAB, hBA, hsubs⟩ :=
      assign_firstTime md5b0 u now db hfresh
        (hfirst u (List.mem_cons_self u us))
    have hcA1 : countA db1.cancellations =
        countA db.cancellations + (if v = Variant.A then 1 else 0) := by
      rw [hcans, countA_append, countA_single]
      simp [newCancellationRow]
    have hcB1 : countB db1.cancellations =
        countB db.cancellations + (if v = Variant.B then 1 else 0) := by
      rw [hcans, countB_append, countB_single]
      simp [newCancellationRow]
    have hbal1 : ((countA db1.cancellations : Int) -
        countB db1.cancellations).natAbs ≤ 1 := by
      by_cases hgt : countA db.cancellations > countB db.cancellations
      · rw [hAB hgt] at hcA1 hcB1
        simp only [reduceCtorEq, if_false, if_pos] at hcA1 hcB1
        omega
      · by_cases hlt : countB db.cancellations > countA db.cancellations
        · rw [hBA hlt] at hcA1 hcB1
          simp only [reduceCtorEq, if_false, if_pos] at hcA1 hcB1
          omega
        · cases v <;> simp only [reduceCtorEq, if_false, if_pos] at hcA1 hcB1 <;> omega
    have hfirst1 : ∀ u' ∈ us, ∀ c ∈ db1.cancellations, c.user_id ≠ u' := by
      intro u' hu' c hc
      rw [hcans] at hc
      rcases List.mem_append.mp hc with hold | hnew
      · exact hfirst u' (List.mem_cons_of_mem u hu') c hold
      · rw [List.mem_singleton.mp hnew]
        have : u ≠ u' := fun h => (List.nodup_cons.mp hnodup).1 (h ▸ hu')
        simpa [newCancellationRow] using this
    have hfresh1 : ∀ c ∈ db1.cancellations, c.id < db1.next_id := by
      intro c hc
      rw [hcans] at hc
      rw [hnid]
      rcases List.mem_append.mp hc with hold | hnew
      · exact Nat.lt_succ_of_lt (hfresh c hold)
      · rw [List.mem_singleton.mp hnew]
        exact Nat.lt_succ_self _
    obtain ⟨db', hrun, hbal'⟩ := ih db1 (now + 1)
      (List.nodup_cons.mp hnodup).2 hfirst1 hfresh1 hbal1
    refine ⟨db', ?_, hbal'⟩
    unfold runAssignSeq
    rw [hmain]
    exact hrun

/-- C1 witness: three first-time users starting from an empty store end with
|count(A) − count(B)| ≤ 1. -/
theorem c1_balance_witness :
    ∃ db', runAssignSeq (fun s => s.length)
        ["u1", "u2", "u3"] 0
        { subscriptions := [], cancellations := [], next_id := 0 } = .ok db' ∧
      ((countA db'.cancellations : Int) - countB db'.cancellations).natAbs ≤ 1 :=
  c1_balance (fun s => s.length) ["u1", "u2", "u3"]
    { subscriptions := [], cancellations := [], next_id := 0 } 0
    (by decide) (by decide) (by decide) (by decide)

/-! ### `latestSubscription` commutes with per-row maps that preserve the
ordering keys -/

theorem foldl_pickLaterSub_map (g : SubscriptionRow → SubscriptionRow)
    (hc : ∀ s, (g s).created_at = s.created_at)
    (hi : ∀ s, (g s).id = s.id) :
    ∀ (l : List SubscriptionRow) (acc : Option SubscriptionRow),
      (l.map g).foldl pickLaterSub (acc.map g) =
        (l.foldl pickLaterSub acc).map g := by
  intro l
  induction l with
  | nil => intro acc; rfl
  | cons x xs ih =>
    intro acc
    have hstep : pickLaterSub (acc.map g) (g x) = (pickLaterSub acc x).map g := by
      cases acc with
      | none => rfl
      | some a =>
        show (if (g x).created_at > (g a).created_at ∨
            ((g x).created_at = (g a).created_at ∧ (g x).id > (g a).id)
          then some (g x) else some (g a)) =
          (if x.created_at > a.created_at ∨
            (x.created_at = a.created_at ∧ x.id > a.id)
          then some x else some a).map g
        rw [hc x, hc a, hi x, hi a]
        by_cases hcond : x.created_at > a.created_at ∨
            (x.created_at = a.created_at ∧ x.id > a.id)
        · rw [if_pos hcond, if_pos hcond]; rfl
        · rw [if_neg hcond, if_neg hcond]; rfl
    rw [List.map_cons, List.foldl_cons, List.foldl_cons, hstep, ih]

theorem latestSubscription_map (uid : String) (g : SubscriptionRow → SubscriptionRow)
    (hu : ∀ s, (g s).user_id = s.user_id)
    (hc : ∀ s, (g s).created_at = s.created_at)
    (hi : ∀ s, (g s).id = s.id) (l : List SubscriptionRow) :
    latestSubscription uid (l.map g) = (latestSubscription uid l).map g := by
  unfold latestSubscription
  rw [List.filter_map]
  have hpred : (fun s => decide (s.user_id = uid)) ∘ g =
      (fun s => decide (s.user_id = uid)) := by
    funext s
    simp [hu s]
  rw [hpred]
  exact foldl_pickLaterSub_map g hc hi (l.filter _) none

theorem latestCancellation_append_single {uid : String}
    {old : List CancellationRow} {row : CancellationRow}
    (hno : ∀ c ∈ old, c.user_id ≠ uid) (hrow : row.user_id = uid) :
    latestCancellation uid (old ++ [row]) = some row := by
  unfold latestCancellation
  rw [List.filter_append]
  have h1 : old.filter (fun c => c.user_id = uid) = [] := by
    apply List.filter_eq_nil_iff.mpr
    intro c hc
    simp [hno c hc]
  have h2 : [row].filter (fun c => c.user_id = uid) = [row] := by
    simp [List.filter, hrow]
  rw [h1, h2]
  rfl

/-! ### C5 — idempotence of `assignArm`, amended -/

/-- C5 (amended): two back-to-back `assignArm` calls for a user who had no
prior Cancellation return the same `(cancellationId, arm)` pair; the second
call creates no Cancellation, does not reassign the arm, and leaves the
cancellations table and the id counter untouched — but it is not free of
state mutation: it rewrites the user's latest Subscription row, refreshing
`updated_at` to the second call's clock (`set_updated_at` trigger) while
every subscription row is otherwise unchanged. -/
theorem c5_idempotent_amended (md5b0 : String → Nat) (uid : String)
    (now1 now2 : Nat) (db : DB)
    (hfresh : ∀ c ∈ db.cancellations, c.id < db.next_id)
    (hno : ∀ c ∈ db.cancellations, c.user_id ≠ uid) :
    ∃ cid v db1 db2,
      assign_balanced_downsell md5b0 none uid now1 db = .ok ((cid, some v), db1)
      ∧ assign_balanced_downsell md5b0 none uid now2 db1 = .ok ((cid, some v), db2)
      ∧ db2.cancellations = db1.cancellations
      ∧ db2.next_id = db1.next_id
      ∧ db2.subscriptions = db1.subscriptions.map (markRow now2
          ((latestSubscription uid db1.subscriptions).map (·.id)))
      ∧ ∀ s ∈ db1.subscriptions,
          markRow now2 ((latestSubscription uid db1.subscriptions).map (·.id)) s = s
          ∨ markRow now2 ((latestSubscription uid db1.subscriptions).map (·.id)) s =
              { s with updated_at := now2 } := by
  have hauth : authForbids none uid = false := rfl
  obtain ⟨v, db1, hmain1, hnid, hcans, _, _, hsubs1⟩ :=
    assign_firstTime md5b0 uid now1 db hfresh hno
  set tgt0 := (latestSubscription uid db.subscriptions).map (·.id) with htgt0
  set row := { newCancellationRow db.next_id uid tgt0 now1 with
    downsell_variant := some v } with hrow
  have hrowuser : row.user_id = uid := by rw [hrow]; simp [newCancellationRow]
  have hrowid : row.id = db.next_id := by rw [hrow]; simp [newCancellationRow]
  have hrowvar : row.downsell_variant = some v := by rw [hrow]
  have hlat2 : latestCancellation uid db1.cancellations = some row := by
    rw [hcans]
    exact latestCancellation_append_single hno hrowuser
  set tgt1 := (latestSubscription uid db1.subscriptions).map (·.id) with htgt1
  have hmain2 : assign_balanced_downsell md5b0 none uid now2 db1 =
      .ok ((row.id, some v),
        { subscriptions := db1.subscriptions.map (markRow now2 tgt1),
          cancellations := db1.cancellations, next_id := db1.next_id }) := by
    unfold assign_balanced_downsell
    rw [hauth]
    simp only [Bool.false_eq_true, if_false, markPending_eq, hlat2, hrowvar,
      ← htgt1]
  rw [hrowid] at hmain2
  set g := markRow now1 tgt0 with hg
  have hgu : ∀ s, (g s).user_id = s.user_id := by
    intro s
    rw [hg]; unfold markRow; split <;> rfl
  have hgc : ∀ s, (g s).created_at = s.created_at := by
    intro s
    rw [hg]; unfold markRow; split <;> rfl
  have hgi : ∀ s, (g s).id = s.id := by
    intro s
    rw [hg]; unfold markRow; split <;> rfl
  have hlatmap : latestSubscription uid db1.subscriptions =
      (latestSubscription uid db.subscriptions).map g := by
    rw [hsubs1]
    exact latestSubscription_map uid g hgu hgc hgi db.subscriptions
  have htgteq : tgt1 = tgt0 := by
    rw [htgt1, htgt0, hlatmap]
    cases latestSubscription uid db.subscriptions with
    | none => rfl
    | some s => show some (g s).id = some s.id; rw [hgi s]
  refine ⟨db.next_id, v, db1, _, hmain1, hmain2, rfl, rfl, rfl, ?_⟩
  intro s1 hs1
  rw [hsubs1] at hs1
  obtain ⟨s0, hs0, hgs0⟩ := List.mem_map.mp hs1
  by_cases hid : tgt1 = some s1.id
  · right
    have hmark : markRow now2 tgt1 s1 =
        { s1 with
          status := if s1.status ≠ SubStatus.cancelled
            then SubStatus.pending_cancellation else s1.status,
          updated_at := now2 } := by
      unfold markRow
      rw [if_pos hid]
    have htgts0 : tgt0 = some s0.id := by
      rw [← htgteq, hid, ← hgs0, hgi s0]
    have hs1status : s1.status = SubStatus.pending_cancellation ∨
        s1.status = SubStatus.cancelled := by
      rw [← hgs0, hg]
      unfold markRow
      rw [if_pos htgts0]
      cases s0.status <;> simp
    have hstat : (if s1.status ≠ SubStatus.cancelled
        then SubStatus.pending_cancellation else s1.status) = s1.status := by
      rcases hs1status with h | h <;> rw [h] <;> simp
    rw [hmark, hstat]
  · left
    unfold markRow
    rw [if_neg hid]

/-- A store with one active subscription for `"u1"` and no cancellations. -/
def dbBeforeC5 : DB :=
  { subscriptions := [sampleSub], cancellations := [], next_id := 1 }

/-- The store after the first `assignArm` call at clock 1. -/
def dbAfterFirstC5 : DB :=
  { subscriptions := [ { sampleSub with
                         status := SubStatus.pending_cancellation,
                         updated_at := 1 } ],
    cancellations := [ { id := 1, user_id := "u1", subscription_id := some 0,
                         downsell_variant := some Variant.A,
                         attributed_to_mm := none, applied_count := none,
                         emailed_count := none, interview_count := none,
                         reason := none, accepted_downsell := false,
                         visa_has_lawyer := none, visa_type := none,
                         created_at := 1 } ],
    next_id := 2 }

/-- The store after the second `assignArm` call at clock 2: same rows except
that the subscription's `updated_at` was rewritten. -/
def dbAfterSecondC5 : DB :=
  { dbAfterFirstC5 with
    subscriptions := [ { sampleSub with
                         status := SubStatus.pending_cancellation,
                         updated_at := 2 } ] }

/-- C5 counterexample: the second back-to-back `assignArm` call returns the
same `(cancellationId, arm)` pair but does mutate the store — the
subscription row is rewritten and `set_updated_at` refreshes `updated_at`
(1 → 2), so "the stored records are unchanged by the second call" is false. -/
theorem c5_counterexample :
    assign_balanced_downsell (fun _ => 0) none "u1" 1 dbBeforeC5 =
      .ok ((1, some Variant.A), dbAfterFirstC5)
    ∧ assign_balanced_downsell (fun _ => 0) none "u1" 2 dbAfterFirstC5 =
      .ok ((1, some Variant.A), dbAfterSecondC5)
    ∧ dbAfterSecondC5 ≠ dbAfterFirstC5 := by
  decide

/-- C5 witness: the amended statement instantiated on the concrete store. -/
theorem c5_idempotent_amended_witness :
    ∃ cid v db1 db2,
      assign_balanced_downsell (fun _ => 0) none "u1" 1 dbBeforeC5 =
        .ok ((cid, some v), db1)
      ∧ assign_balanced_downsell (fun _ => 0) none "u1" 2 db1 =
        .ok ((cid, some v), db2)
      ∧ db2.cancellations = db1.cancellations
      ∧ db2.next_id = db1.next_id
      ∧ db2.subscriptions = db1.subscriptions.map (markRow 2
          ((latestSubscription "u1" db1.subscriptions).map (·.id)))
      ∧ ∀ s ∈ db1.subscriptions,
          markRow 2 ((latestSubscription "u1" db1.subscriptions).map (·.id)) s = s
          ∨ markRow 2 ((latestSubscription "u1" db1.subscriptions).map (·.id)) s =
              { s with updated_at := 2 } :=
  c5_idempotent_amended (fun _ => 0) "u1" 1 2 dbBeforeC5 (by decide) (by decide)

/-! ### C6 — partial draft saves -/

theorem prevent_variant_change_refl (x : Option Variant) :
    prevent_variant_change x x = .ok x := by
  unfold prevent_variant_change
  rcases x with _ | v <;> simp

theorem nullifEmpty_emptyToNull (s : String) :
    nullifEmpty (emptyToNull s) = emptyToNull s := by
  unfold emptyToNull
  by_cases h : s = "" <;> simp [h, nullifEmpty]

theorem nullifEmpty_trimReason (r : Option String) :
    nullifEmpty (trimReasonOrNull r) = trimReasonOrNull r := by
  unfold trimReasonOrNull
  set t : String := ⟨trimWs (r.getD "").data⟩ with ht
  by_cases h : t = "" <;> simp [h, nullifEmpty]

theorem head?_filter_prop {p : α → Bool} {l : List α} {c : α}
    (h : (l.filter p).head? = some c) : p c = true := by
  cases hf : l.filter p with
  | nil => rw [hf] at h; cases h
  | cons x xs =>
    rw [hf] at h
    cases h
    have : c ∈ l.filter p := by rw [hf]; exact List.mem_cons_self c xs
    exact (List.mem_filter.mp this).2

/-- The row transformation `save_found_job_answers` applies to the matched
row, composed with the client's argument mapping. -/
def applyFoundJobSave (p : DraftPayload) (c : CancellationRow) : CancellationRow :=
  { c with
    attributed_to_mm := p.attributed_to_mm,
    applied_count := emptyToNull p.applied_count,
    emailed_count := emptyToNull p.emailed_count,
    interview_count := emptyToNull p.interview_count,
    reason := trimReasonOrNull p.reason }

/-- C6 (amended): a draft save through `saveFoundJobAnswersRpc` /
`save_found_job_answers` always succeeds, and reading the record back shows
the supplied field's new value — but the save is not partial: all five
payload-scope columns (`attributed_to_mm`, `applied_count`, `emailed_count`,
`interview_count`, `reason`) are overwritten, with unset fields written as
NULL rather than omitted; only the columns outside the RPC's scope
(`downsell_variant`, `accepted_downsell`, the visa fields, `user_id`,
`created_at`) are left unchanged — which `applyFoundJobSave` records
exactly. -/
theorem c6_partial_save_amended (cid : Nat) (p : DraftPayload) (db : DB) :
    ∃ db', saveFoundJobAnswersRpc none cid p db = .ok db'
      ∧ ∀ c, fetchCancellationAnswers cid db = some c →
          fetchCancellationAnswers cid db' = some (applyFoundJobSave p c) := by
  have hauth : ∀ vu, authForbidsOwner none vu = false := by
    intro vu; cases vu <;> rfl
  set upd : CancellationRow → CancellationRow := fun r =>
    if r.id = cid then applyFoundJobSave p r else r with hupd
  have hmap : mapExcept
      (fun c =>
        if c.id = cid then
          match prevent_variant_change c.downsell_variant c.downsell_variant with
          | .error e => .error e
          | .ok v =>
            .ok { c with
              downsell_variant := v,
              attributed_to_mm := p.attributed_to_mm,
              applied_count := nullifEmpty (emptyToNull p.applied_count),
              emailed_count := nullifEmpty (emptyToNull p.emailed_count),
              interview_count := nullifEmpty (emptyToNull p.interview_count),
              reason := nullifEmpty (trimReasonOrNull p.reason) }
        else .ok c)
      db.cancellations = .ok (db.cancellations.map upd) := by
    apply mapExcept_eq_map
    intro r _
    by_cases h : r.id = cid
    · simp only [hupd, if_pos h, prevent_variant_change_refl,
        nullifEmpty_emptyToNull, nullifEmpty_trimReason, applyFoundJobSave]
    · simp only [hupd, if_neg h]
  have hmain : saveFoundJobAnswersRpc none cid p db =
      .ok { subscriptions := db.subscriptions,
            cancellations := db.cancellations.map upd,
            next_id := db.next_id } := by
    unfold saveFoundJobAnswersRpc save_found_job_answers
    simp only [hauth, Bool.false_eq_true, if_false, hmap]
  refine ⟨_, hmain, ?_⟩
  intro c hc
  have hcid : c.id = cid := by
    have := head?_filter_prop hc
    exact of_decide_eq_true this
  unfold fetchCancellationAnswers at hc ⊢
  have hfilter : (db.cancellations.map upd).filter (fun r => r.id = cid) =
      (db.cancellations.filter (fun r => r.id = cid)).map upd := by
    rw [List.filter_map]
    refine congrArg (List.map upd) (List.filter_congr ?_)
    intro r _
    show decide ((upd r).id = cid) = decide (r.id = cid)
    by_cases h : r.id = cid
    · simp only [hupd, if_pos h]
      rfl
    · simp only [hupd, if_neg h]
  show ((db.cancellations.map upd).filter (fun r => r.id = cid)).head? =
    some (applyFoundJobSave p c)
  rw [hfilter, List.head?_map, hc]
  show some (upd c) = some (applyFoundJobSave p c)
  simp only [hupd, if_pos hcid]

/-- A record with several previously-set survey fields. -/
def rowC6 : CancellationRow :=
  { sampleCan with
      id := 1
      attributed_to_mm := some true
      applied_count := some "0"
      emailed_count := some "1-5"
      reason := some "loved the weekly summaries" }

def dbC6 : DB := { subscriptions := [], cancellations := [rowC6], next_id := 2 }

/-- The partial draft payload of the claim: only `applied_count` supplied. -/
def payloadC6 : DraftPayload :=
  { attributed_to_mm := none, applied_count := "1-5", emailed_count := "",
    interview_count := "", reason := none }

def dbC6after : DB :=
  { subscriptions := [],
    cancellations := [ { rowC6 with
                           attributed_to_mm := none
                           applied_count := some "1-5"
                           emailed_count := none
                           interview_count := none
                           reason := none } ],
    next_id := 2 }

/-- C6 counterexample: saving the partial payload `{applied_count: "1-5"}`
reads back the new `applied_count` but clobbers the previously-set
`emailed_count` (and `attributed_to_mm`, `reason`) to NULL, contradicting
"all previously-set other fields unchanged / unset fields are omitted". -/
theorem c6_counterexample :
    (fetchCancellationAnswers 1 dbC6).map (·.emailed_count) = some (some "1-5")
    ∧ saveFoundJobAnswersRpc none 1 payloadC6 dbC6 = .ok dbC6after
    ∧ (fetchCancellationAnswers 1 dbC6after).map (·.applied_count) =
        some (some "1-5")
    ∧ (fetchCancellationAnswers 1 dbC6after).map (·.emailed_count) = some none := by
  decide

/-- C6 witness: the amended statement instantiated on the concrete store. -/
theorem c6_partial_save_amended_witness :
    ∃ db', saveFoundJobAnswersRpc none 1 payloadC6 dbC6 = .ok db'
      ∧ fetchCancellationAnswers 1 db' =
          some (applyFoundJobSave payloadC6 rowC6) := by
  obtain ⟨db', h1, h2⟩ := c6_partial_save_amended 1 payloadC6 dbC6
  exact ⟨db', h1, h2 rowC6 (by decide)⟩

/-! ### Sanitizer machinery, part 1: every stage deletes characters (up to
whitespace normalisation) -/

/-- The per-character effect of `\s+ → ' '`: a whitespace character can only
ever surface as a space. -/
def wsNorm (c : Char) : Char := if isJsWs c then ' ' else c

theorem stripTagsGo_sublist :
    ∀ l : List Char, (stripTagsGo l none <+ l) ∧
      ∀ p, stripTagsGo l (some p) <+ ('<' :: p.reverse) ++ l := by
  intro l
  induction l with
  | nil =>
    constructor
    · exact List.Sublist.refl _
    · intro p
      rw [stripTagsGo, List.append_nil]
  | cons c rest ih =>
    constructor
    · by_cases h : c = '<'
      · rw [stripTagsGo, if_pos h, h]
        exact (ih.2 []).trans (List.Sublist.refl _)
      · rw [stripTagsGo, if_neg h]
        exact List.Sublist.cons₂ c ih.1
    · intro p
      by_cases h : c = '>'
      · rw [stripTagsGo, if_pos h]
        exact ih.1.trans ((List.Sublist.cons c (List.Sublist.refl rest)).trans
          (List.sublist_append_right _ _))
      · rw [stripTagsGo, if_neg h]
        have := ih.2 (c :: p)
        rw [List.reverse_cons] at this
        calc stripTagsGo rest (some (c :: p))
            <+ ('<' :: (p.reverse ++ [c])) ++ rest := this
          _ = ('<' :: p.reverse) ++ (c :: rest) := by simp

theorem stripTags_sublist (l : List Char) : stripTags l <+ l :=
  (stripTagsGo_sublist l).1

theorem stripPatAux_sublist (pat : List Char) :
    ∀ (fuel : Nat) (l : List Char), stripPatAux pat fuel l <+ l := by
  intro fuel
  induction fuel with
  | zero =>
    intro l
    cases l with
    | nil => exact List.Sublist.refl _
    | cons c cs => exact List.Sublist.refl _
  | succ n ih =>
    intro l
    cases l with
    | nil => exact List.Sublist.refl _
    | cons c cs =>
      rw [stripPatAux]
      by_cases h : lcMatches pat (c :: cs) = true
      · rw [if_pos h]
        exact (ih _).trans (List.drop_sublist _ _)
      · rw [if_neg h]
        exact List.Sublist.cons₂ c (ih cs)

theorem stripPat_sublist (pat l : List Char) : stripPat pat l <+ l :=
  stripPatAux_sublist pat l.length l

theorem collapseWsGo_sublist :
    ∀ (l : List Char) (b : Bool), collapseWsGo l b <+ l.map wsNorm := by
  intro l
  induction l with
  | nil => intro b; exact List.Sublist.refl _
  | cons c rest ih =>
    intro b
    rw [collapseWsGo, List.map_cons]
    by_cases h : isJsWs c = true
    · have hnorm : wsNorm c = ' ' := by rw [wsNorm, if_pos h]
      rw [if_pos h, hnorm]
      cases b with
      | true => exact (ih true).cons ' '
      | false => exact (ih true).cons₂ ' '
    · have hnorm : wsNorm c = c := by rw [wsNorm, if_neg h]
      rw [if_neg h, hnorm]
      exact (ih false).cons₂ c

theorem collapseWs_sublist (l : List Char) : collapseWs l <+ l.map wsNorm :=
  collapseWsGo_sublist l false

/-- Left trim, `dropWhile` on the front. -/
def ltrimWs (l : List Char) : List Char := l.dropWhile isJsWs

/-- Right trim, `dropWhile` on the reversed list. -/
def rtrimWs (l : List Char) : List Char := (l.reverse.dropWhile isJsWs).reverse

theorem trimWs_eq (l : List Char) : trimWs l = rtrimWs (ltrimWs l) := rfl

theorem rtrimWs_sublist (l : List Char) : rtrimWs l <+ l := by
  have h : (rtrimWs l).reverse <+ l.reverse := by
    rw [rtrimWs, List.reverse_reverse]
    exact List.dropWhile_sublist _
  exact List.reverse_sublist.mp h

theorem trimWs_sublist (l : List Char) : trimWs l <+ l := by
  rw [trimWs_eq]
  exact (rtrimWs_sublist _).trans (List.dropWhile_sublist _)

theorem wsNorm_map_sublist {l l' : List Char} (h : l <+ l') :
    l.map wsNorm <+ l'.map wsNorm := List.Sublist.map wsNorm h

/-- The body of `sanitizeText` before trimming and clamping. -/
def sanitizeCore (l : List Char) : List Char :=
  collapseWs (stripPat dataScheme (stripPat jsScheme (stripTags l)))

theorem sanitizeTextL_eq (l : List Char) (h : ¬ l.isEmpty = true) :
    sanitizeTextL l = (trimWs (sanitizeCore l)).take MAX_TEXT_LEN := by
  rw [sanitizeTextL, if_neg h]
  rfl

theorem sanitizeCore_sublist (l : List Char) :
    sanitizeCore l <+ l.map wsNorm := by
  refine (collapseWs_sublist _).trans (wsNorm_map_sublist ?_)
  exact ((stripPat_sublist _ _).trans (stripPat_sublist _ _)).trans
    (stripTags_sublist l)

theorem trim_sanitizeCore_sublist (l : List Char) :
    trimWs (sanitizeCore l) <+ l.map wsNorm :=
  (trimWs_sublist _).trans (sanitizeCore_sublist l)

/-! ### Sanitizer machinery, part 2: sanitized text never outgrows the
trimmed raw text -/

theorem dropWhile_head_false {p : Char → Bool} :
    ∀ {l : List Char} {c : Char} {t : List Char},
      l.dropWhile p = c :: t → p c = false := by
  intro l
  induction l with
  | nil => intro c t h; cases h
  | cons x xs ih =>
    intro c t h
    rw [List.dropWhile_cons] at h
    by_cases hx : p x = true
    · rw [if_pos hx] at h
      exact ih h
    · rw [if_neg hx] at h
      cases h
      exact Bool.not_eq_true _ ▸ hx

theorem rtrimWs_decomp (u : List Char) :
    ∃ t, rtrimWs u ++ t = u ∧ ∀ x ∈ t, isJsWs x = true := by
  refine ⟨(u.reverse.takeWhile isJsWs).reverse, ?_, ?_⟩
  · rw [rtrimWs, ← List.reverse_append, List.takeWhile_append_dropWhile,
      List.reverse_reverse]
  · intro x hx
    rw [List.mem_reverse] at hx
    exact List.mem_takeWhile_imp hx

theorem sublist_shave_left {A M : List Char} {d : Char} {t : List Char}
    (hA : ∀ x ∈ A, isJsWs x = true) (hd : isJsWs d = false)
    (h : (d :: t) <+ A ++ M) : (d :: t) <+ M := by
  obtain ⟨w1, w2, heq, h1, h2⟩ := List.sublist_append_iff.mp h
  cases w1 with
  | nil =>
    rw [List.nil_append] at heq
    rw [heq]
    exact h2
  | cons e w1' =>
    rw [List.cons_append] at heq
    have he : e = d := (List.cons.injEq _ _ _ _ ▸ heq).1.symm
    have : e ∈ A := h1.subset (List.mem_cons_self e w1')
    rw [he] at this
    rw [hA d this] at hd
    cases hd

theorem trimWs_decomp (l : List Char) :
    ∃ A C, l = A ++ (trimWs l ++ C)
      ∧ (∀ x ∈ A, isJsWs x = true) ∧ (∀ x ∈ C, isJsWs x = true) := by
  obtain ⟨t, ht, hws⟩ := rtrimWs_decomp (ltrimWs l)
  refine ⟨l.takeWhile isJsWs, t, ?_, ?_, hws⟩
  · rw [trimWs_eq, ht]
    exact (List.takeWhile_append_dropWhile isJsWs l).symm
  · intro x hx
    exact List.mem_takeWhile_imp hx

theorem sublist_trim_squeeze {l w : List Char} (hw : w <+ l.map wsNorm)
    (hhead : ∀ d t, w = d :: t → isJsWs d = false)
    (hlast : ∀ d t, w.reverse = d :: t → isJsWs d = false) :
    w <+ (trimWs l).map wsNorm := by
  obtain ⟨A, C, hdec, hA, hC⟩ := trimWs_decomp l
  have hmapws : ∀ (X : List Char), (∀ x ∈ X, isJsWs x = true) →
      ∀ y ∈ X.map wsNorm, isJsWs y = true := by
    intro X hX y hy
    obtain ⟨x, hx, rfl⟩ := List.mem_map.mp hy
    rw [wsNorm, if_pos (hX x hx)]
    rfl
  rw [hdec, List.map_append, List.map_append] at hw
  cases hwc : w with
  | nil => exact List.nil_sublist _
  | cons d t =>
    rw [hwc] at hw
    have hstep1 : (d :: t) <+ (trimWs l).map wsNorm ++ C.map wsNorm :=
      sublist_shave_left (hmapws A hA) (hhead d t hwc) hw
    have hrev : (d :: t).reverse <+
        (C.map wsNorm).reverse ++ ((trimWs l).map wsNorm).reverse := by
      rw [← List.reverse_append]
      exact List.reverse_sublist.mpr hstep1
    cases hwr : (d :: t).reverse with
    | nil =>
      have : (d :: t) = [] := by
        have := congrArg List.reverse hwr
        rwa [List.reverse_reverse] at this
      cases this
    | cons e s =>
      rw [hwr] at hrev
      have hlaste : isJsWs e = false := by
        apply hlast e s
        rw [hwc, hwr]
      have hCrev : ∀ x ∈ (C.map wsNorm).reverse, isJsWs x = true := by
        intro x hx
        rw [List.mem_reverse] at hx
        exact hmapws C hC x hx
      have hstep2 : (e :: s) <+ ((trimWs l).map wsNorm).reverse :=
        sublist_shave_left hCrev hlaste hrev
      have : (e :: s).reverse <+ (trimWs l).map wsNorm := by
        have := List.reverse_sublist.mpr hstep2
        rwa [List.reverse_reverse] at this
      rw [← hwr] at this
      rwa [List.reverse_reverse] at this

theorem trimWs_head {l : List Char} {d : Char} {t : List Char}
    (h : trimWs l = d :: t) : isJsWs d = false := by
  obtain ⟨t', ht', _⟩ := rtrimWs_decomp (ltrimWs l)
  rw [trimWs_eq] at h
  rw [h] at ht'
  have : ltrimWs l = d :: (t ++ t') := by
    rw [← ht']
    rfl
  exact dropWhile_head_false this

theorem trimWs_last {l : List Char} {d : Char} {t : List Char}
    (h : (trimWs l).reverse = d :: t) : isJsWs d = false := by
  rw [trimWs_eq, rtrimWs, List.reverse_reverse] at h
  exact dropWhile_head_false h

theorem sanitize_length_le_trim (l : List Char) :
    (sanitizeTextL l).length ≤ (trimWs l).length := by
  by_cases hemp : l.isEmpty = true
  · rw [sanitizeTextL, if_pos hemp]
    exact Nat.zero_le _
  · rw [sanitizeTextL_eq l hemp]
    set w := trimWs (sanitizeCore l) with hwdef
    have hle : ((w.take MAX_TEXT_LEN).length ≤ w.length) := by
      rw [List.length_take]
      exact Nat.min_le_right _ _
    refine hle.trans ?_
    have hsq : w <+ (trimWs l).map wsNorm := by
      apply sublist_trim_squeeze (trim_sanitizeCore_sublist l)
      · intro d t h
        exact trimWs_head (hwdef ▸ h)
      · intro d t h
        exact trimWs_last (hwdef ▸ h)
    have := hsq.length_le
    rwa [List.length_map] at this

/-! ### C8 — the feedback gate -/

/-- C8 counterexample: a feedback consisting of one long markup tag
sanitizes to the empty string (sanitized length 0 ≤ 24), yet the Continue
button is enabled, because the gate tests `feedback.trim().length`, not the
sanitized length. -/
theorem c8_counterexample :
    (sanitizeText "<aaaaaaaaaaaaaaaaaaaaaaaaaaaaa>").length = 0
    ∧ feedbackContinueDisabled "<aaaaaaaaaaaaaaaaaaaaaaaaaaaaa>" = false := by
  decide

/-- C8 (amended): the forward transition out of `feedback` is enabled iff
the *trimmed raw* feedback has length ≥ 25 — not the sanitized length.  Since
sanitizing can only shorten text below its trimmed length, an input whose
sanitized length reaches 25 is still always enabled (so the passing half of
Scenario C survives), but inputs can be enabled while their sanitized length
is below 25. -/
theorem c8_feedback_gate_amended (s : String) :
    (feedbackContinueDisabled s = false ↔ MIN_FEEDBACK ≤ (trimWs s.data).length)
    ∧ (MIN_FEEDBACK ≤ (sanitizeText s).length →
        feedbackContinueDisabled s = false) := by
  have hkey : feedbackContinueDisabled s = false ↔
      MIN_FEEDBACK ≤ (trimWs s.data).length := by
    rw [feedbackContinueDisabled, decide_eq_false_iff_not, Nat.not_lt]
  refine ⟨hkey, ?_⟩
  intro h
  rw [hkey]
  have h1 : (sanitizeText s).length = (sanitizeTextL s.data).length := rfl
  have h2 := sanitize_length_le_trim s.data
  omega

/-- C8 witness: a 25-character sanitized feedback is enabled. -/
theorem c8_feedback_gate_amended_witness :
    feedbackContinueDisabled "abcdefghijklmnopqrstuvwxy" = false :=
  (c8_feedback_gate_amended "abcdefghijklmnopqrstuvwxy").2 (by decide)

/-! ### Sanitizer machinery, part 3: fixed points of the individual stages -/

theorem stripPatAux_no_occur {pat : List Char} :
    ∀ {l : List Char}, containsPat pat l = false →
      ∀ fuel, stripPatAux pat fuel l = l := by
  intro l
  induction l with
  | nil =>
    intro _ fuel
    cases fuel <;> rfl
  | cons c cs ih =>
    intro h fuel
    rw [containsPat] at h
    have hm : lcMatches pat (c :: cs) = false := by
      cases hx : lcMatches pat (c :: cs) with
      | false => rfl
      | true => rw [hx] at h; simp at h
    have hrest : containsPat pat cs = false := by
      cases hx : containsPat pat cs with
      | false => rfl
      | true => rw [hx] at h; simp at h
    cases fuel with
    | zero => rfl
    | succ n =>
      rw [stripPatAux, if_neg (by rw [hm]; exact Bool.false_ne_true), ih hrest n]

theorem stripPat_no_occur {pat l : List Char}
    (h : containsPat pat l = false) : stripPat pat l = l :=
  stripPatAux_no_occur h l.length

/-- "All `>` before all `<`": the shape of any text that the tag-stripping
regex leaves alone. -/
def SplitLtGt (l : List Char) : Prop :=
  ∃ u v, l = u ++ v ∧ '<' ∉ u ∧ '>' ∉ v

theorem splitLtGt_stripTagsGo :
    ∀ (l : List Char) (st : Option (List Char)),
      (st = none ∨ ∃ p, st = some p ∧ '>' ∉ p) →
      SplitLtGt (stripTagsGo l st) := by
  intro l
  induction l with
  | nil =>
    intro st hst
    rcases hst with rfl | ⟨p, rfl, hp⟩
    · exact ⟨[], [], rfl, by simp, by simp⟩
    · refine ⟨[], '<' :: p.reverse, rfl, by simp, ?_⟩
      intro hmem
      rcases List.mem_cons.mp hmem with h | h
      · cases h
      · exact hp (List.mem_reverse.mp h)
  | cons c rest ih =>
    intro st hst
    rcases hst with rfl | ⟨p, rfl, hp⟩
    · by_cases h : c = '<'
      · rw [stripTagsGo, if_pos h]
        exact ih (some []) (Or.inr ⟨[], rfl, by simp⟩)
      · rw [stripTagsGo, if_neg h]
        obtain ⟨u, v, heq, hu, hv⟩ := ih none (Or.inl rfl)
        refine ⟨c :: u, v, by rw [heq]; rfl, ?_, hv⟩
        intro hmem
        rcases List.mem_cons.mp hmem with rfl | hmem'
        · exact h rfl
        · exact hu hmem'
    · by_cases h : c = '>'
      · rw [stripTagsGo, if_pos h]
        exact ih none (Or.inl rfl)
      · rw [stripTagsGo, if_neg h]
        refine ih (some (c :: p)) (Or.inr ⟨c :: p, rfl, ?_⟩)
        intro hmem
        rcases List.mem_cons.mp hmem with heq | hmem'
        · exact h heq.symm
        · exact hp hmem'

theorem splitLtGt_stripTags (l : List Char) : SplitLtGt (stripTags l) :=
  splitLtGt_stripTagsGo l none (Or.inl rfl)

theorem splitLtGt_of_sublist {w z : List Char} (hs : w <+ z)
    (hz : SplitLtGt z) : SplitLtGt w := by
  obtain ⟨u, v, rfl, hu, hv⟩ := hz
  obtain ⟨w1, w2, rfl, h1, h2⟩ := List.sublist_append_iff.mp hs
  exact ⟨w1, w2, rfl, fun hm => hu (h1.subset hm), fun hm => hv (h2.subset hm)⟩

theorem splitLtGt_map_wsNorm {z : List Char} (hz : SplitLtGt z) :
    SplitLtGt (z.map wsNorm) := by
  obtain ⟨u, v, rfl, hu, hv⟩ := hz
  rw [List.map_append]
  refine ⟨u.map wsNorm, v.map wsNorm, rfl, ?_, ?_⟩
  · intro hm
    obtain ⟨a, ha, hna⟩ := List.mem_map.mp hm
    rw [wsNorm] at hna
    split at hna
    · cases hna
    · exact hu (hna ▸ ha)
  · intro hm
    obtain ⟨a, ha, hna⟩ := List.mem_map.mp hm
    rw [wsNorm] at hna
    split at hna
    · cases hna
    · exact hv (hna ▸ ha)

theorem stripTagsGo_no_gt :
    ∀ {rest : List Char} (p : List Char), '>' ∉ rest →
      stripTagsGo rest (some p) = '<' :: p.reverse ++ rest := by
  intro rest
  induction rest with
  | nil =>
    intro p _
    rw [stripTagsGo, List.append_nil]
  | cons c cs ih =>
    intro p h
    have hc : ¬ c = '>' := fun hc => h (hc ▸ List.mem_cons_self c cs)
    have hcs : '>' ∉ cs := fun hm => h (List.mem_cons_of_mem c hm)
    rw [stripTagsGo, if_neg hc, ih (c :: p) hcs, List.reverse_cons]
    simp

theorem stripTagsGo_no_gt_none :
    ∀ {v : List Char}, '>' ∉ v → stripTagsGo v none = v := by
  intro v
  induction v with
  | nil => intro _; rfl
  | cons c cs ih =>
    intro h
    have hcs : '>' ∉ cs := fun hm => h (List.mem_cons_of_mem c hm)
    by_cases hc : c = '<'
    · rw [stripTagsGo, if_pos hc, stripTagsGo_no_gt [] hcs, hc]
      rfl
    · rw [stripTagsGo, if_neg hc, ih hcs]

theorem stripTagsGo_no_lt_append {v : List Char} :
    ∀ {u : List Char}, '<' ∉ u →
      stripTagsGo (u ++ v) none = u ++ stripTagsGo v none := by
  intro u
  induction u with
  | nil => intro _; rfl
  | cons c cs ih =>
    intro h
    have hc : ¬ c = '<' := fun hc => h (hc ▸ List.mem_cons_self c cs)
    have hcs : '<' ∉ cs := fun hm => h (List.mem_cons_of_mem c hm)
    rw [List.cons_append, stripTagsGo, if_neg hc, ih hcs]
    rfl

theorem stripTags_id_of_splitLtGt {w : List Char} (hw : SplitLtGt w) :
    stripTags w = w := by
  obtain ⟨u, v, rfl, hu, hv⟩ := hw
  rw [stripTags, stripTagsGo_no_lt_append hu, stripTagsGo_no_gt_none hv]

/-- A character list is "collapsed" when every whitespace character in it is
a plain space and no two whitespace characters are adjacent — exactly the
lists `\s+ → ' '` leaves alone. -/
def collapsedB : List Char → Bool
  | [] => true
  | [c] => !isJsWs c || c == ' '
  | c :: d :: rest =>
    (!isJsWs c || (c == ' ' && !isJsWs d)) && collapsedB (d :: rest)

theorem collapsedB_tail {c : Char} {rest : List Char}
    (h : collapsedB (c :: rest) = true) : collapsedB rest = true := by
  cases rest with
  | nil => rfl
  | cons d rs =>
    rw [collapsedB] at h
    exact (Bool.and_eq_true _ _ ▸ h).2

theorem collapsedB_cons_of_not_ws {c : Char} {rest : List Char}
    (hc : isJsWs c = false) (h : collapsedB rest = true) :
    collapsedB (c :: rest) = true := by
  cases rest with
  | nil => rw [collapsedB, hc]; rfl
  | cons d rs => rw [collapsedB, hc, h]; rfl

/-- In the "just saw whitespace" state, the next emitted character is
non-whitespace. -/
def headNotWs : List Char → Bool
  | [] => true
  | c :: _ => !isJsWs c

theorem collapseWsGo_true_headNotWs :
    ∀ l : List Char, headNotWs (collapseWsGo l true) = true := by
  intro l
  induction l with
  | nil => rfl
  | cons c rest ih =>
    rw [collapseWsGo]
    by_cases h : isJsWs c = true
    · rw [if_pos h, if_pos rfl]
      exact ih
    · rw [if_neg h]
      rw [headNotWs, Bool.not_eq_true', (Bool.not_eq_true _).mp h]

theorem collapsedB_space_cons {X : List Char} (hh : headNotWs X = true)
    (hX : collapsedB X = true) : collapsedB (' ' :: X) = true := by
  cases X with
  | nil => rfl
  | cons d rs =>
    rw [headNotWs] at hh
    rw [collapsedB, hX]
    have : isJsWs d = false := by
      cases hd : isJsWs d
      · rfl
      · rw [hd] at hh; cases hh
    rw [this]
    rfl

theorem collapsedB_collapseWsGo :
    ∀ (l : List Char) (b : Bool), collapsedB (collapseWsGo l b) = true := by
  intro l
  induction l with
  | nil => intro b; rfl
  | cons c rest ih =>
    intro b
    rw [collapseWsGo]
    by_cases h : isJsWs c = true
    · rw [if_pos h]
      cases b with
      | true => rw [if_pos rfl]; exact ih true
      | false =>
        rw [if_neg (by simp)]
        exact collapsedB_space_cons (collapseWsGo_true_headNotWs rest) (ih true)
    · rw [if_neg h]
      exact collapsedB_cons_of_not_ws ((Bool.not_eq_true _).mp h) (ih false)

theorem collapseWsGo_true_eq_false {l : List Char}
    (h : headNotWs l = true) : collapseWsGo l true = collapseWsGo l false := by
  cases l with
  | nil => rfl
  | cons c rest =>
    rw [headNotWs] at h
    have hc : ¬ isJsWs c = true := by
      cases hx : isJsWs c
      · simp
      · rw [hx] at h; cases h
    rw [collapseWsGo, collapseWsGo, if_neg hc, if_neg hc]

theorem collapseWsGo_id :
    ∀ {l : List Char}, collapsedB l = true → collapseWsGo l false = l := by
  intro l
  induction l with
  | nil => intro _; rfl
  | cons c rest ih =>
    intro h
    have htail : collapsedB rest = true := collapsedB_tail h
    by_cases hc : isJsWs c = true
    · have hparts : c = ' ' ∧ headNotWs rest = true := by
        cases rest with
        | nil =>
          refine ⟨?_, rfl⟩
          rw [collapsedB, hc] at h
          simpa using h
        | cons d rs =>
          rw [collapsedB, hc] at h
          simp only [Bool.not_true, Bool.false_or, Bool.and_eq_true,
            beq_iff_eq, Bool.not_eq_true'] at h
          refine ⟨h.1.1, ?_⟩
          rw [headNotWs, h.1.2]
          rfl
      rw [collapseWsGo, if_pos hc, if_neg (by simp), hparts.1,
        collapseWsGo_true_eq_false hparts.2, ih htail]
    · rw [collapseWsGo, if_neg hc, ih htail]

theorem collapseWs_id {l : List Char} (h : collapsedB l = true) :
    collapseWs l = l := collapseWsGo_id h

theorem collapsedB_ws_head {c : Char} {rest : List Char}
    (h : collapsedB (c :: rest) = true) (hc : isJsWs c = true) :
    c = ' ' ∧ headNotWs rest = true := by
  cases rest with
  | nil =>
    refine ⟨?_, rfl⟩
    rw [collapsedB, hc] at h
    simpa using h
  | cons d rs =>
    rw [collapsedB, hc] at h
    simp only [Bool.not_true, Bool.false_or, Bool.and_eq_true,
      beq_iff_eq, Bool.not_eq_true'] at h
    refine ⟨h.1.1, ?_⟩
    rw [headNotWs, h.1.2]
    rfl

theorem headNotWs_take {l : List Char} (h : headNotWs l = true) :
    ∀ n, headNotWs (l.take n) = true := by
  intro n
  cases l with
  | nil => rw [List.take_nil]; rfl
  | cons c rest =>
    cases n with
    | zero => rfl
    | succ m => exact h

theorem collapsedB_take :
    ∀ {l : List Char}, collapsedB l = true →
      ∀ n, collapsedB (l.take n) = true := by
  intro l
  induction l with
  | nil => intro _ n; rw [List.take_nil]; rfl
  | cons c rest ih =>
    intro h n
    cases n with
    | zero => rfl
    | succ m =>
      rw [List.take_succ_cons]
      by_cases hc : isJsWs c = true
      · obtain ⟨hsp, hhd⟩ := collapsedB_ws_head h hc
        rw [hsp]
        exact collapsedB_space_cons (headNotWs_take hhd m)
          (ih (collapsedB_tail h) m)
      · exact collapsedB_cons_of_not_ws ((Bool.not_eq_true _).mp hc)
          (ih (collapsedB_tail h) m)

theorem collapsedB_dropWhile {p : Char → Bool} :
    ∀ {l : List Char}, collapsedB l = true →
      collapsedB (l.dropWhile p) = true := by
  intro l
  induction l with
  | nil => intro _; exact rfl
  | cons c rest ih =>
    intro h
    rw [List.dropWhile_cons]
    by_cases hc : p c = true
    · rw [if_pos hc]
      exact ih (collapsedB_tail h)
    · rw [if_neg hc]
      exact h

theorem collapsedB_rtrimWs {u : List Char} (h : collapsedB u = true) :
    collapsedB (rtrimWs u) = true := by
  obtain ⟨t, ht, _⟩ := rtrimWs_decomp u
  have hx : rtrimWs u = (rtrimWs u ++ t).take (rtrimWs u).length :=
    (List.take_left _ _).symm
  rw [ht] at hx
  rw [hx]
  exact collapsedB_take h _

theorem dropWhile_idem {p : Char → Bool} (l : List Char) :
    (l.dropWhile p).dropWhile p = l.dropWhile p := by
  cases h : l.dropWhile p with
  | nil => rfl
  | cons c t =>
    rw [List.dropWhile_cons, if_neg]
    rw [dropWhile_head_false h]
    exact Bool.false_ne_true

theorem trim_sanitizeCore_sublist_tags (l : List Char) :
    trimWs (sanitizeCore l) <+ (stripTags l).map wsNorm :=
  (trimWs_sublist _).trans ((collapseWs_sublist _).trans (wsNorm_map_sublist
    ((stripPat_sublist _ _).trans (stripPat_sublist _ _))))

theorem rtrimWs_reverse (u : List Char) :
    (rtrimWs u).reverse = u.reverse.dropWhile isJsWs := by
  rw [rtrimWs, List.reverse_reverse]

/-! ### C9 — sanitization idempotence -/

/-- C9 counterexample: `sanitize` is not idempotent.  Deleting the embedded
`javascript:` occurrence from `"jjavascript:avascript:"` splices a fresh
`javascript:` together, which only a second pass removes. -/
theorem c9_counterexample :
    sanitizeText "jjavascript:avascript:" = "javascript:"
    ∧ sanitizeText (sanitizeText "jjavascript:avascript:") = ""
    ∧ sanitizeText (sanitizeText "jjavascript:avascript:") ≠
        sanitizeText "jjavascript:avascript:" := by
  refine ⟨by decide, by decide, ?_⟩
  decide

theorem sanitizeTextL_fixed (l : List Char)
    (hlen : (sanitizeTextL l).length < MAX_TEXT_LEN)
    (hjs : containsPat jsScheme (sanitizeTextL l) = false)
    (hdata : containsPat dataScheme (sanitizeTextL l) = false) :
    sanitizeTextL (sanitizeTextL l) = sanitizeTextL l := by
  set y := sanitizeTextL l with hy
  by_cases hynil : y = []
  · rw [hynil]
    rfl
  · have hempL : ¬ l.isEmpty = true := by
      intro hl
      apply hynil
      rw [hy, sanitizeTextL, if_pos hl]
    set m := sanitizeCore l with hm
    have hyeq : y = (trimWs m).take MAX_TEXT_LEN := by
      rw [hy, sanitizeTextL_eq l hempL]
    have hytrim : y = trimWs m := by
      rw [hyeq]
      apply List.take_of_length_le
      by_contra hgt
      have h1000 : MAX_TEXT_LEN ≤ (trimWs m).length := Nat.le_of_not_le hgt
      have : y.length = MAX_TEXT_LEN := by
        rw [hyeq, List.length_take]
        exact Nat.min_eq_left h1000
      omega
    have hcol : collapsedB y = true := by
      rw [hytrim, trimWs_eq]
      apply collapsedB_rtrimWs
      apply collapsedB_dropWhile
      rw [hm]
      exact collapsedB_collapseWsGo _ false
    have hhead : headNotWs y = true := by
      cases hcy : y with
      | nil => rfl
      | cons d t =>
        rw [headNotWs, Bool.not_eq_true']
        exact trimWs_head (hytrim ▸ hcy)
    have hltrim : ltrimWs y = y := by
      cases hcy : y with
      | nil => rfl
      | cons d t =>
        rw [ltrimWs, List.dropWhile_cons, if_neg]
        rw [hcy] at hhead
        rw [headNotWs] at hhead
        simp only [Bool.not_eq_true'] at hhead
        rw [hhead]
        exact Bool.false_ne_true
    have hrtrim : rtrimWs y = y := by
      have hyrev : y.reverse = (ltrimWs m).reverse.dropWhile isJsWs := by
        rw [hytrim, trimWs_eq, rtrimWs_reverse]
      have : (rtrimWs y).reverse = y.reverse := by
        rw [rtrimWs_reverse, hyrev, dropWhile_idem]
      have h2 := congrArg List.reverse this
      rwa [List.reverse_reverse, List.reverse_reverse] at h2
    have htrim : trimWs y = y := by
      rw [trimWs_eq, hltrim, hrtrim]
    have hsplit : SplitLtGt y := by
      have hsub : y <+ (stripTags l).map wsNorm := by
        rw [hytrim, hm]
        exact trim_sanitizeCore_sublist_tags l
      exact splitLtGt_of_sublist hsub (splitLtGt_map_wsNorm (splitLtGt_stripTags l))
    have h1 : stripTags y = y := stripTags_id_of_splitLtGt hsplit
    have h2 : stripPat jsScheme y = y := stripPat_no_occur hjs
    have h3 : stripPat dataScheme y = y := stripPat_no_occur hdata
    have h4 : collapseWs y = y := collapseWs_id hcol
    have hempY : ¬ y.isEmpty = true := by
      intro hl
      exact hynil (List.isEmpty_iff.mp hl)
    rw [sanitizeTextL_eq y hempY, sanitizeCore, h1, h2, h3, h4, htrim]
    apply List.take_of_length_le
    omega

/-- C9 (amended): `sanitize` is not idempotent in general, but it is a
no-op on every already-sanitized string that is itself free of the
deleted scheme fragments (`javascript:` / `data:text/html`) and shorter
than the 1000-unit clamp: for all x, if `sanitize x` satisfies these,
`sanitize (sanitize x) = sanitize x`. -/
theorem c9_sanitize_idempotent_amended (s : String)
    (hlen : (sanitizeText s).length < MAX_TEXT_LEN)
    (hjs : containsPat jsScheme (sanitizeText s).data = false)
    (hdata : containsPat dataScheme (sanitizeText s).data = false) :
    sanitizeText (sanitizeText s) = sanitizeText s := by
  have : sanitizeTextL (sanitizeTextL s.data) = sanitizeTextL s.data :=
    sanitizeTextL_fixed s.data hlen hjs hdata
  rw [sanitizeText, sanitizeText]
  exact congrArg String.mk this

/-- C9 witness: on a benign input, applying `sanitize` twice equals applying
it once. -/
theorem c9_sanitize_idempotent_amended_witness :
    sanitizeText (sanitizeText "  hello   <b>world</b>  ") =
      sanitizeText "  hello   <b>world</b>  " :=
  c9_sanitize_idempotent_amended "  hello   <b>world</b>  "
    (by decide) (by decide) (by decide)
